import Mathlib

/-!
Verification of the provider-abstraction and resilient-response layer of an
AI video-generation web app (services/geminiService.ts).

The embedding models text as `List Char`. JavaScript / SDK effects (network
requests, `window.aistudio`, `process.env`, `console`) are modelled by an
explicit oracle environment threaded through the protocol functions, which
record every outgoing request and every credential-reselection invocation.
-/

set_option maxRecDepth 10000

namespace AiVideoGen

/-! ## JavaScript string primitives -/

/-- The whitespace class used by the source's regexes (`\s`) and `String.trim`.
Modelled as the common ASCII whitespace characters. -/
def isJsWs (c : Char) : Bool :=
  c = ' ' || c = '\t' || c = '\n' || c = '\r' || c = '\x0b' || c = '\x0c'

/-- `String.prototype.trim` (left part). -/
def trimLeft (cs : List Char) : List Char := cs.dropWhile isJsWs

/-- `String.prototype.trim` (right part). -/
def trimRight (cs : List Char) : List Char := (cs.reverse.dropWhile isJsWs).reverse

/-- `String.prototype.trim`. -/
def jsTrim (cs : List Char) : List Char := trimRight (trimLeft cs)

/-- `String.prototype.toLowerCase`, ASCII model. -/
def lowerChars (cs : List Char) : List Char := cs.map Char.toLower

/-- `String.prototype.includes` (substring containment). -/
def containsSeq : List Char → List Char → Bool
  | hay, needle =>
    if needle.isPrefixOf hay then true
    else
      match hay with
      | [] => false
      | _ :: rest => containsSeq rest needle

/-- `String.prototype.indexOf` restricted to a single character; `none` models `-1`. -/
def idxOfC : List Char → Char → Option Nat
  | [], _ => none
  | c :: rest, t => if c = t then some 0 else (idxOfC rest t).map (· + 1)

/-- `String.prototype.lastIndexOf` for a single character; `none` models `-1`. -/
def lastIdxOfC (cs : List Char) (t : Char) : Option Nat :=
  (idxOfC cs.reverse t).map (fun i => cs.length - 1 - i)

/-! ## Error values and the auth-class classifier -/

/-- A loosely typed JavaScript primitive, for the `status` / `code` fields an
SDK error object may carry (string or number). -/
inductive JsPrim where
  | s (v : String)
  | n (v : Int)
deriving DecidableEq, Repr

/-- A JavaScript error value as inspected by the service layer: its `message`
plus the optional structured `status` and `code` fields read by `isAuthError`. -/
structure ErrVal where
  message : String
  status : Option JsPrim := none
  code : Option JsPrim := none
deriving DecidableEq, Repr

/-- Build the plain `new Error(msg)` value (no structured fields). -/
def mkErr (msg : String) : ErrVal := ⟨msg, none, none⟩

/-- `isAuthError` (src/unnamed/part_002 lines 6-14): lowercase the message and
test for the SDK's not-found phrase, a 404 indicator, the string status
`NOT_FOUND`, or the numeric code `404`. -/
def isAuthError (e : ErrVal) : Bool :=
  let msg := lowerChars e.message.toList
  containsSeq msg "requested entity was not found".toList ||
  containsSeq msg "404".toList ||
  e.status == some (JsPrim.s "NOT_FOUND") ||
  e.code == some (JsPrim.n 404)

/-! ## JSON values

`JSON.parse` / `JSON.stringify` are modelled over the following AST. Numbers
are kept as their raw token characters: none of the verified claims involves
numeric payloads, so number identity is token-level. Object fields keep
source order and duplicates. -/

inductive Json where
  | str (s : List Char)
  | num (raw : List Char)
  | bool (b : Bool)
  | null
  | arr (xs : List Json)
  | obj (ms : List (List Char × Json))

/-- Shorthand for a JSON string literal value. -/
def jstr (s : String) : Json := Json.str s.toList

/-- Shorthand for a JSON object field. -/
def fld (k : String) (v : Json) : List Char × Json := (k.toList, v)

/-- `JSON.stringify` escaping for one character inside a string literal. -/
def escChar (c : Char) : List Char :=
  if c = '"' then ['\\', '"']
  else if c = '\\' then ['\\', '\\']
  else if c = '\n' then ['\\', 'n']
  else if c = '\r' then ['\\', 'r']
  else if c = '\t' then ['\\', 't']
  else if c = '\x08' then ['\\', 'b']
  else if c = '\x0c' then ['\\', 'f']
  else if c.toNat < 0x20 then
    ['\\', 'u', '0', '0', Nat.digitChar (c.toNat / 16), Nat.digitChar (c.toNat % 16)]
  else [c]

/-- `JSON.stringify` rendering of a string literal (quotes plus escaped body). -/
def encodeStr (s : List Char) : List Char := '"' :: (s.flatMap escChar) ++ ['"']

mutual

/-- Compact `JSON.stringify` (no added whitespace). -/
def stringifyJ : Json → List Char
  | .str s => encodeStr s
  | .num raw => raw
  | .bool b => if b then "true".toList else "false".toList
  | .null => "null".toList
  | .arr xs => '[' :: stringifyE xs ++ [']']
  | .obj ms => Char.ofNat 123 :: stringifyM ms ++ [Char.ofNat 125]

/-- Comma-joined serialization of array elements. -/
def stringifyE : List Json → List Char
  | [] => []
  | [x] => stringifyJ x
  | x :: y :: rest => stringifyJ x ++ ',' :: stringifyE (y :: rest)

/-- Comma-joined serialization of object members. -/
def stringifyM : List (List Char × Json) → List Char
  | [] => []
  | [(k, v)] => encodeStr k ++ ':' :: stringifyJ v
  | (k, v) :: m :: rest => encodeStr k ++ ':' :: stringifyJ v ++ ',' :: stringifyM (m :: rest)

end

/-! ## `JSON.parse` -/

/-- JSON grammar whitespace (space, tab, line feed, carriage return). -/
def isJsonWs (c : Char) : Bool := c = ' ' || c = '\t' || c = '\n' || c = '\r'

/-- Skip JSON whitespace. -/
def skipWs (cs : List Char) : List Char := cs.dropWhile isJsonWs

/-- Is this character a hexadecimal digit? -/
def isHexDigitC (c : Char) : Bool :=
  c.isDigit || ('a' ≤ c && c ≤ 'f') || ('A' ≤ c && c ≤ 'F')

/-- Numeric value of a hex digit character. -/
def hexVal (c : Char) : Nat :=
  if c.isDigit then c.toNat - '0'.toNat
  else if 'a' ≤ c ∧ c ≤ 'f' then c.toNat - 'a'.toNat + 10
  else if 'A' ≤ c ∧ c ≤ 'F' then c.toNat - 'A'.toNat + 10
  else 0

/-- Decode a one-character escape sequence (everything but `\uXXXX`). -/
def unescape1 (e : Char) : Option Char :=
  if e = '"' then some '"'
  else if e = '\\' then some '\\'
  else if e = '/' then some '/'
  else if e = 'b' then some '\x08'
  else if e = 'f' then some '\x0c'
  else if e = 'n' then some '\n'
  else if e = 'r' then some '\r'
  else if e = 't' then some '\t'
  else none

/-- Parse the body of a JSON string literal (the opening quote already
consumed); returns the decoded content and the input after the closing
quote. Raw control characters are rejected, as in JSON. A `\uXXXX` escape
whose value is not a valid scalar falls back to the `Char.ofNat` default; no
verified claim exercises that corner. -/
def parseJStr : List Char → Option (List Char × List Char)
  | [] => none
  | c :: rest =>
    if c = '"' then some ([], rest)
    else if c = '\\' then
      match rest with
      | [] => none
      | e :: r1 =>
        if e = 'u' then
          match r1 with
          | h1 :: h2 :: h3 :: h4 :: r =>
            if isHexDigitC h1 && isHexDigitC h2 && isHexDigitC h3 && isHexDigitC h4 then
              let n := Nat.ofDigits 16 [hexVal h4, hexVal h3, hexVal h2, hexVal h1]
              (parseJStr r).map (fun p => (Char.ofNat n :: p.1, p.2))
            else none
          | _ => none
        else
          match unescape1 e with
          | none => none
          | some d => (parseJStr r1).map (fun p => (d :: p.1, p.2))
    else if c.toNat < 0x20 then none
    else (parseJStr rest).map (fun p => (c :: p.1, p.2))

/-- Parse a JSON number token (raw characters), per the JSON grammar
`-? int frac? exp?`. -/
def parseNumTok (cs : List Char) : Option (List Char × List Char) :=
  let (sign, r1) :=
    match cs with
    | '-' :: r => (['-'], r)
    | r => (([] : List Char), r)
  match r1 with
  | [] => none
  | d :: _ =>
    if ¬ d.isDigit then none
    else
      let intPart := r1.takeWhile Char.isDigit
      let r2 := r1.dropWhile Char.isDigit
      if intPart.length > 1 ∧ intPart.headD '0' = '0' then none
      else
        let (fracPart, r3) :=
          match r2 with
          | '.' :: fr =>
            let ds := fr.takeWhile Char.isDigit
            if ds = [] then ([], r2) else ('.' :: ds, fr.dropWhile Char.isDigit)
          | _ => (([] : List Char), r2)
        if r2 ≠ [] ∧ r2.headD ' ' = '.' ∧ fracPart = [] then none
        else
          let (expPart, r4) :=
            match r3 with
            | e :: er =>
              if e = 'e' ∨ e = 'E' then
                let (es, er2) :=
                  match er with
                  | s :: er' => if s = '+' ∨ s = '-' then ([s], er') else ([], er)
                  | [] => (([] : List Char), er)
                let ds := er2.takeWhile Char.isDigit
                if ds = [] then (([] : List Char), r3)
                else (e :: es ++ ds, er2.dropWhile Char.isDigit)
              else ([], r3)
            | [] => (([] : List Char), r3)
          if r3 ≠ [] ∧ (r3.headD ' ' = 'e' ∨ r3.headD ' ' = 'E') ∧ expPart = [] then none
          else some (sign ++ intPart ++ fracPart ++ expPart, r4)

mutual

/-- Fuel-indexed JSON value parser; returns the value and remaining input. -/
def parseVal : Nat → List Char → Option (Json × List Char)
  | 0, _ => none
  | fuel + 1, cs =>
    match skipWs cs with
    | '"' :: rest => (parseJStr rest).map (fun p => (Json.str p.1, p.2))
    | '\x7b' :: rest =>
      let r2 := skipWs rest
      if r2.head? = some '\x7d' then some (Json.obj [], r2.tail)
      else parseMembers fuel r2 []
    | '[' :: rest =>
      let r2 := skipWs rest
      if r2.head? = some ']' then some (Json.arr [], r2.tail)
      else parseElems fuel r2 []
    | 't' :: 'r' :: 'u' :: 'e' :: rest => some (Json.bool true, rest)
    | 'f' :: 'a' :: 'l' :: 's' :: 'e' :: rest => some (Json.bool false, rest)
    | 'n' :: 'u' :: 'l' :: 'l' :: rest => some (Json.null, rest)
    | cs' => (parseNumTok cs').map (fun p => (Json.num p.1, p.2))

/-- Parse the members of a JSON object (first member expected next). -/
def parseMembers : Nat → List Char → List (List Char × Json) → Option (Json × List Char)
  | 0, _, _ => none
  | fuel + 1, cs, acc =>
    match skipWs cs with
    | '"' :: rest =>
      match parseJStr rest with
      | none => none
      | some (k, r1) =>
        match skipWs r1 with
        | ':' :: r2 =>
          match parseVal fuel r2 with
          | none => none
          | some (v, r3) =>
            match skipWs r3 with
            | ',' :: r4 => parseMembers fuel r4 (acc ++ [(k, v)])
            | '\x7d' :: r4 => some (Json.obj (acc ++ [(k, v)]), r4)
            | _ => none
        | _ => none
    | _ => none

/-- Parse the elements of a JSON array (first element expected next). -/
def parseElems : Nat → List Char → List Json → Option (Json × List Char)
  | 0, _, _ => none
  | fuel + 1, cs, acc =>
    match parseVal fuel cs with
    | none => none
    | some (v, r1) =>
      match skipWs r1 with
      | ',' :: r2 => parseElems fuel r2 (acc ++ [v])
      | ']' :: r2 => some (Json.arr (acc ++ [v]), r2)
      | _ => none

end

/-- `JSON.parse`: parse one value and require only whitespace to follow. -/
def jsonParse (cs : List Char) : Option Json :=
  match parseVal (cs.length + 1) cs with
  | some (v, rest) => if skipWs rest = [] then some v else none
  | none => none

/-! ## `safeJSONParse` (src/unnamed/part_002 lines 35-78) -/

/-- Split the input at the first occurrence of a triple-backtick fence:
returns the text before the fence and the text after it. -/
def splitFence : List Char → Option (List Char × List Char)
  | c1 :: c2 :: c3 :: rest =>
    if c1 = Char.ofNat 96 ∧ c2 = Char.ofNat 96 ∧ c3 = Char.ofNat 96 then
      some ([], rest)
    else
      (splitFence (c2 :: c3 :: rest)).map (fun p => (c1 :: p.1, p.2))
  | _ => none

/-- Step 2 of `safeJSONParse`: the markdown-block match
for the lazy regex on fenced code blocks with an optional `json` tag.
Returns the trimmed inner content of the first fenced block, if any. -/
def markdownExtract (cs : List Char) : Option (List Char) :=
  match splitFence cs with
  | none => none
  | some (_, after) =>
    let after1 := if after.take 4 = "json".toList then after.drop 4 else after
    match splitFence after1 with
    | none => none
    | some (inner, _) => some (jsTrim inner)

/-- Step 3 of `safeJSONParse`: locate the first `\x7b`/`[` opener, decide
object- vs array-shape, and truncate to the span up to the last matching
closer; skip truncation when the bounds are not found in the right order. -/
def extractSpan (cs : List Char) : List Char :=
  let fb := idxOfC cs '\x7b'
  let fk := idxOfC cs '['
  let lb := lastIdxOfC cs '\x7d'
  let lk := lastIdxOfC cs ']'
  let se : Option Nat × Option Nat :=
    match fb, fk with
    | some b, some k => if b < k then (some b, lb) else (some k, lk)
    | some b, none => (some b, lb)
    | none, some k => (some k, lk)
    | none, none => (none, none)
  match se with
  | (some s, some e) => if s < e then (cs.drop s).take (e + 1 - s) else cs
  | _ => cs

/-- Does the regex `,(\s*[}\]])` match here, i.e. is the next non-`\s`
character after this point a closing brace or bracket? -/
def commaCloserAfter (rest : List Char) : Bool :=
  match rest.dropWhile isJsWs with
  | d :: _ => d = '\x7d' || d = ']'
  | [] => false

/-- Step 4's repair: the global replace of `,(\s*[}\]])` by the captured
group, i.e. drop every comma that is followed (across optional whitespace)
by a closing brace or bracket. The source's regex resumes scanning after
each match; since a matched span (`,` + whitespace + closer) contains no
further comma, rescanning the emitted span is observationally identical, so
the repair is modelled as a single character-wise pass. -/
def fixCommas : List Char → List Char
  | [] => []
  | c :: rest =>
    if c = ',' && commaCloserAfter rest then fixCommas rest
    else c :: fixCommas rest

/-- The fixed message of the error thrown when both parse attempts fail. -/
def malformedMsg : String :=
  "Failed to parse model response as JSON. The response might be incomplete or malformed."

/-- The error value thrown when both parse attempts fail. -/
def malformedErr : ErrVal := mkErr malformedMsg

/-- Steps 1-2 of `safeJSONParse`: trim, then substitute the inner content of
a fenced markdown block when one is present. -/
def cleanedText (text : List Char) : List Char :=
  let cleaned0 := jsTrim text
  match markdownExtract cleaned0 with
  | some inner => inner
  | none => cleaned0

/-- `safeJSONParse`, together with the lines it writes via `console.error`
(the second component; the source logs the original raw text there). -/
def safeJSONParseFull (text : List Char) : Except ErrVal Json × List (List Char) :=
  let cleaned := extractSpan (cleanedText text)
  match jsonParse cleaned with
  | some v => (Except.ok v, [])
  | none =>
    match jsonParse (fixCommas cleaned) with
    | some v => (Except.ok v, [])
    | none => (Except.error malformedErr, [text])

/-- `safeJSONParse`: the value/error component alone. -/
def safeJSONParse (text : List Char) : Except ErrVal Json := (safeJSONParseFull text).1

/-! ## Model configuration (types.ts) -/

/-- `InferenceConfig` from types.ts: all three fields required. -/
structure InferenceConfig where
  temperature : ℚ
  topP : ℚ
  maxTokens : ℕ
deriving DecidableEq, Repr

/-- `ModelConfig` from types.ts. Optional string fields use `""` for an
absent value, mirroring JavaScript falsiness checks in the source. -/
structure ModelConfig where
  provider : String
  apiKey : String := ""
  baseUrl : String := ""
  textModel : String := ""
  imageModel : String := ""
  videoModel : String := ""
  inferenceConfig : Option InferenceConfig := none
deriving DecidableEq, Repr

/-- UI language selector. -/
inductive Language where
  | en
  | zh
deriving DecidableEq, Repr

/-- `config.inferenceConfig?.temperature`. -/
def inferTemp (cfg : ModelConfig) : Option ℚ := cfg.inferenceConfig.map (·.temperature)

/-- `config.inferenceConfig?.topP`. -/
def inferTopP (cfg : ModelConfig) : Option ℚ := cfg.inferenceConfig.map (·.topP)

/-- `config.inferenceConfig?.maxTokens`. -/
def inferMax (cfg : ModelConfig) : Option ℕ := cfg.inferenceConfig.map (·.maxTokens)

/-- `config.textModel || "gemini-2.5-flash"`. -/
def textModelOf (cfg : ModelConfig) : String :=
  if cfg.textModel = "" then "gemini-2.5-flash" else cfg.textModel

/-! ## Browser/process environment -/

/-- The ambient JavaScript environment: the process-level fallback key
(`process.env.API_KEY`) before and after a credential reselection, and the
`window.aistudio` capability. `hasSelectedApiKeyFn` models the presence of
the `hasSelectedApiKey` member (the source tests it only for truthiness). -/
structure JsEnv where
  envKey : String := ""
  envKeyAfterSelect : String := ""
  aistudio : Bool := false
  hasSelectedApiKeyFn : Bool := false
deriving DecidableEq, Repr

/-- `getGoogleClient`'s effective key: the per-call key if non-empty, else
`process.env.API_KEY` (which reselection may have replaced). -/
def effectiveGoogleKey (cfg : ModelConfig) (env : JsEnv) (reselected : Bool) : String :=
  if cfg.apiKey ≠ "" then cfg.apiKey
  else if reselected then env.envKeyAfterSelect else env.envKey

/-- The error thrown by `getGoogleClient` when no key resolves. -/
def keyMissingErr : ErrVal := mkErr "Google API Key is missing"

/-! ## Google structured-generation protocol (analyzeStoryGoogle / polishStory) -/

/-- One outgoing `ai.models.generateContent` request, as the protocol claims
observe it: model name, prompt contents, JSON mime type, whether a strict
`responseSchema` is attached, and the sampling parameters. (All such calls
also attach the permissive `SAFETY_SETTINGS`; that constant field is not
recorded.) -/
structure GenRequest where
  model : String
  contents : String
  mimeJson : Bool
  strictSchema : Bool
  temperature : Option ℚ
  topP : Option ℚ
  maxOutputTokens : Option ℕ
deriving DecidableEq, Repr

/-- The outcome of one `generateContent` call: resolved with an optional
`response.text`, or rejected with an error value. -/
inductive CallResult where
  | ok (text : Option String)
  | fail (e : ErrVal)

/-- Observable trace of a structured-generation call: the requests issued in
order, and how many times `window.aistudio.openSelectKey()` ran. -/
structure Trace where
  reqs : List GenRequest := []
  reselects : ℕ := 0

/-- Issue one request against the oracle (the i-th call receives the i-th
oracle outcome) and record it. -/
def doCall (oracle : ℕ → CallResult) (st : Trace) (r : GenRequest) : CallResult × Trace :=
  (oracle st.reqs.length, { st with reqs := st.reqs ++ [r] })

/-- The strict-schema request of the Google protocol. -/
def strictReq (cfg : ModelConfig) (prompt : String) : GenRequest :=
  { model := textModelOf cfg, contents := prompt, mimeJson := true, strictSchema := true,
    temperature := inferTemp cfg, topP := inferTopP cfg, maxOutputTokens := inferMax cfg }

/-- The fallback (schema-in-prompt) request of the Google protocol. -/
def fallbackReq (cfg : ModelConfig) (contents : String) : GenRequest :=
  { model := textModelOf cfg, contents := contents, mimeJson := true, strictSchema := false,
    temperature := inferTemp cfg, topP := inferTopP cfg, maxOutputTokens := inferMax cfg }

/-- Interpret one `generateContent` outcome inside the inner `try`: a
rejection re-raises its error, absent text raises the given empty-response
error, and present text goes through `safeJSONParse`. -/
def callOutcome (r : CallResult) (emptyMsg : String) : Except ErrVal Json :=
  match r with
  | .fail e => Except.error e
  | .ok none => Except.error (mkErr emptyMsg)
  | .ok (some t) => safeJSONParse t.toList

/-- One `attempt` of the shared Google structured-generation protocol
(duplicated verbatim in the source between `analyzeStoryGoogle` and
`polishStory`): resolve the client key, issue the strict request, and on any
non-auth-class failure inside the inner `try` issue exactly one fallback
request. Auth-class failures skip the fallback. The `getGoogleClient` throw
happens before the `try` block; it is returned through the same error
channel, which is behaviour-equivalent because its message never classifies
as auth-class. -/
def googleAttemptBase (oracle : ℕ → CallResult) (cfg : ModelConfig) (env : JsEnv)
    (strict fb : GenRequest) (emptyMsg fbEmptyMsg : String) (reselected : Bool)
    (st : Trace) : Except ErrVal Json × Trace :=
  if effectiveGoogleKey cfg env reselected = "" then (Except.error keyMissingErr, st)
  else
    let c1 := doCall oracle st strict
    match callOutcome c1.1 emptyMsg with
    | .ok v => (Except.ok v, c1.2)
    | .error e =>
      if isAuthError e then (Except.error e, c1.2)
      else
        let c2 := doCall oracle c1.2 fb
        (callOutcome c2.1 fbEmptyMsg, c2.2)

/-- The full Google structured-generation call: `attempt(false)` plus the
outer catch implementing the bounded retry — on an auth-class failure of the
first attempt with `window.aistudio` present, invoke `openSelectKey` once
and run `attempt(true)`; a second failure is surfaced unmodified. -/
def googleStructuredCall (oracle : ℕ → CallResult) (cfg : ModelConfig) (env : JsEnv)
    (strict fb : GenRequest) (emptyMsg fbEmptyMsg : String) : Except ErrVal Json × Trace :=
  match googleAttemptBase oracle cfg env strict fb emptyMsg fbEmptyMsg false {} with
  | (.error err, st) =>
    if isAuthError err && env.aistudio then
      googleAttemptBase oracle cfg env strict fb emptyMsg fbEmptyMsg true
        { st with reselects := st.reselects + 1 }
    else (Except.error err, st)
  | r => r

/-! ## The two structured document schemas, as plain JSON data -/

/-- `ANALYSIS_JSON_SCHEMA_OBJECT` (src/unnamed/part_002 lines 122-193). -/
def ANALYSIS_JSON_SCHEMA_OBJECT : Json :=
  Json.obj [
    fld "type" (jstr "object"),
    fld "properties" (Json.obj [
      fld "title" (Json.obj [fld "type" (jstr "string"),
        fld "description" (jstr "A creative, catchy title for the story based on its theme")]),
      fld "characters" (Json.obj [
        fld "type" (jstr "array"),
        fld "items" (Json.obj [
          fld "type" (jstr "object"),
          fld "properties" (Json.obj [
            fld "name" (Json.obj [fld "type" (jstr "string")]),
            fld "description" (Json.obj [fld "type" (jstr "string"),
              fld "description" (jstr "Visual appearance description for image generation")])]),
          fld "required" (Json.arr [jstr "name", jstr "description"])])]),
      fld "scenes" (Json.obj [
        fld "type" (jstr "array"),
        fld "items" (Json.obj [
          fld "type" (jstr "object"),
          fld "properties" (Json.obj [
            fld "description" (Json.obj [fld "type" (jstr "string"),
              fld "description" (jstr "Detailed visual description of the location/setting")])]),
          fld "required" (Json.arr [jstr "description"])])]),
      fld "props" (Json.obj [
        fld "type" (jstr "array"),
        fld "items" (Json.obj [
          fld "type" (jstr "object"),
          fld "properties" (Json.obj [
            fld "name" (Json.obj [fld "type" (jstr "string")]),
            fld "description" (Json.obj [fld "type" (jstr "string"),
              fld "description" (jstr "Visual description of the object")])]),
          fld "required" (Json.arr [jstr "name", jstr "description"])])]),
      fld "animals_plants" (Json.obj [
        fld "type" (jstr "array"),
        fld "items" (Json.obj [
          fld "type" (jstr "object"),
          fld "properties" (Json.obj [
            fld "name" (Json.obj [fld "type" (jstr "string")]),
            fld "description" (Json.obj [fld "type" (jstr "string")])]),
          fld "required" (Json.arr [jstr "name", jstr "description"])])]),
      fld "others" (Json.obj [
        fld "type" (jstr "array"),
        fld "items" (Json.obj [
          fld "type" (jstr "object"),
          fld "properties" (Json.obj [
            fld "name" (Json.obj [fld "type" (jstr "string")]),
            fld "description" (Json.obj [fld "type" (jstr "string")])]),
          fld "required" (Json.arr [jstr "name", jstr "description"])])]),
      fld "plot_points" (Json.obj [
        fld "type" (jstr "array"),
        fld "items" (Json.obj [
          fld "type" (jstr "object"),
          fld "properties" (Json.obj [
            fld "description" (Json.obj [fld "type" (jstr "string"),
              fld "description" (jstr "What happens in this part of the story")]),
            fld "suggested_visual" (Json.obj [fld "type" (jstr "string"),
              fld "description" (jstr "Detailed video generation prompt including subject, setting, lighting, camera movement, and style")])]),
          fld "required" (Json.arr [jstr "description", jstr "suggested_visual"])])])]),
    fld "required" (Json.arr [jstr "title", jstr "characters", jstr "scenes", jstr "props",
      jstr "animals_plants", jstr "others", jstr "plot_points"])]

/-- `POLISH_JSON_SCHEMA_OBJECT` (src/unnamed/part_002 lines 680-692). -/
def POLISH_JSON_SCHEMA_OBJECT : Json :=
  Json.obj [
    fld "type" (jstr "object"),
    fld "properties" (Json.obj [
      fld "critique" (Json.obj [fld "type" (jstr "string"),
        fld "description" (jstr "Critique of the original story pointing out conflicts, plot holes, or areas for improvement.")]),
      fld "rewritten_story" (Json.obj [fld "type" (jstr "string"),
        fld "description" (jstr "The rewritten version of the story.")]),
      fld "changes_made" (Json.obj [
        fld "type" (jstr "array"),
        fld "items" (Json.obj [fld "type" (jstr "string")]),
        fld "description" (jstr "List of key changes made to fix the issues.")])]),
    fld "required" (Json.arr [jstr "critique", jstr "rewritten_story", jstr "changes_made"])]

/-! ## Prompts and the two Google entry points

The source serializes `ANALYSIS_JSON_SCHEMA_OBJECT` with a 2-space indent
into the analysis fallback prompt; the model uses the compact serialization
throughout (a whitespace-only difference in an opaque prompt string). -/

/-- The language directive of `analyzeStoryGoogle`. -/
def analyzeLangDirective : Language → String
  | .zh => "IMPORTANT: All \x27title\x27, \x27description\x27 (for assets and plot_points), and \x27name\x27 fields MUST be in Chinese (Simplified). HOWEVER, the \x27suggested_visual\x27 field MUST remain in English to ensure better compatibility with video generation models."
  | .en => "Respond in English."

/-- The analysis task prompt (src/unnamed/part_002 lines 282-296). -/
def analysisPrompt (storyText : String) (lang : Language) : String :=
  "Analyze the following folktale. \n    1. Generate a creative, catchy title for the story.\n    2. Extract characters, scenes, props, animals/plants, and key plot points. \n    For descriptions, ensure they are highly visual and suitable for an image generation prompt (e.g., \x27Cinematic lighting, detailed texture\x27).\n    \n    For the \x27suggested_visual\x27 field in plot_points, create a highly detailed prompt for video generation. It MUST include:\n    - Detailed description of the visible action.\n    - Visual appearance of characters and setting (referencing extracted assets where possible).\n    - Lighting (e.g., \x27golden hour\x27, \x27cinematic\x27, \x27dramatic\x27).\n    - Camera movement (e.g., \x27slow pan\x27, \x27zoom\x27, \x27static shot\x27).\n    - Style (e.g., \x27photorealistic\x27, \x278k\x27, \x27highly detailed\x27, \x27folklore style\x27).\n\n    "
    ++ analyzeLangDirective lang ++ "\n\n    Story: " ++ storyText

/-- The fallback contents of the analysis protocol: the task prompt plus the
target schema serialized into the prompt text. -/
def analysisFallbackContents (prompt : String) : String :=
  prompt ++ "\n\nIMPORTANT: Return the result as a valid JSON object matching this structure:\n"
    ++ (stringifyJ ANALYSIS_JSON_SCHEMA_OBJECT).asString

/-- `analyzeStoryGoogle`: the Google analysis call over a given environment
and request oracle. -/
def analyzeStoryGoogle (storyText : String) (cfg : ModelConfig) (lang : Language)
    (env : JsEnv) (oracle : ℕ → CallResult) : Except ErrVal Json × Trace :=
  let prompt := analysisPrompt storyText lang
  googleStructuredCall oracle cfg env
    (strictReq cfg prompt) (fallbackReq cfg (analysisFallbackContents prompt))
    "No analysis generated from Google. Content might be blocked."
    "No analysis generated from Google (Fallback)."

/-- The language directive of `polishStory`. -/
def polishLangDirective : Language → String
  | .zh => "OUTPUT INSTRUCTION: Return the \x27critique\x27, \x27rewritten_story\x27, and \x27changes_made\x27 in Chinese (Simplified)."
  | .en => "Respond in English."

/-- The polish task prompt (src/unnamed/part_002 lines 701-715). -/
def polishPrompt (storyText : String) (lang : Language) : String :=
  "\n    Act as a professional story editor and script doctor.\n    Analyze the following story draft. Identify:\n    1. Logical inconsistencies or plot holes.\n    2. Narrative flow issues.\n    3. Character motivation conflicts.\n    \n    Then, rewrite the story to fix these issues while maintaining the original tone. \n    Make it more engaging and suitable for visual storytelling.\n\n    "
    ++ polishLangDirective lang ++ "\n\n    Original Story:\n    " ++ storyText ++ "\n    "

/-- The fallback contents of the polish protocol. -/
def polishFallbackContents (prompt : String) : String :=
  prompt ++ "\n\nIMPORTANT: Return valid JSON matching this structure:\n"
    ++ (stringifyJ POLISH_JSON_SCHEMA_OBJECT).asString

/-- `polishStory`, Google branch. -/
def polishStoryGoogle (storyText : String) (cfg : ModelConfig) (lang : Language)
    (env : JsEnv) (oracle : ℕ → CallResult) : Except ErrVal Json × Trace :=
  let prompt := polishPrompt storyText lang
  googleStructuredCall oracle cfg env
    (strictReq cfg prompt) (fallbackReq cfg (polishFallbackContents prompt))
    "No polish generated from Google."
    "No polish generated from Google (Fallback)."

/-! ## OpenAI-compatible structured generation -/

/-- `baseUrl.replace(/\/+$/, '')`: strip trailing slashes. -/
def stripTrailingSlashes (s : String) : String :=
  ((s.toList.reverse.dropWhile (· = '/')).reverse).asString

/-- The outcome of one `fetch` round trip: HTTP `ok`/`status`, the body as
text, and the body as parsed JSON (`none` models a `response.json()`
rejection). -/
structure HttpResp where
  ok : Bool
  status : ℕ
  body : String
  jsonBody : Option Json := none

/-- The chat-completions request the OpenAI-compatible path sends. -/
structure ChatRequest where
  endpoint : String
  authHeader : Option String
  model : String
  systemContent : String
  userContent : String
  temperature : Option ℚ
  topP : Option ℚ
  maxTokens : Option ℕ
  responseFormatJsonObject : Bool
  ollamaJsonFormat : Bool
  ollamaStreamOff : Bool
deriving Repr

/-- Last-wins field lookup on a JSON object (JavaScript object semantics). -/
def jsonField (j : Json) (k : String) : Option Json :=
  match j with
  | .obj ms => ((ms.reverse.find? (fun m => m.1 = k.toList)).map (·.2))
  | _ => none

/-- Array index lookup on a JSON value. -/
def jsonIndex (j : Json) (i : ℕ) : Option Json :=
  match j with
  | .arr xs => xs.get? i
  | _ => none

/-- `data.choices?.[0]?.message?.content`, when it is a string. (A
non-string `content` would flow into substring/parse calls in the source;
no verified claim depends on that corner.) -/
def chatContent (data : Json) : Option String :=
  match (((jsonField data "choices").bind (jsonIndex · 0)).bind
      (jsonField · "message")).bind (jsonField · "content") with
  | some (.str s) => some s.asString
  | _ => none

/-- Shared request-building of the two OpenAI-compatible calls. -/
def buildChatRequest (cfg : ModelConfig) (systemContent userContent : String) : ChatRequest :=
  { endpoint := stripTrailingSlashes cfg.baseUrl ++ "/chat/completions",
    authHeader := if cfg.apiKey ≠ "" then some ("Bearer " ++ cfg.apiKey) else none,
    model := cfg.textModel,
    systemContent := systemContent,
    userContent := userContent,
    temperature := inferTemp cfg,
    topP := inferTopP cfg,
    maxTokens := inferMax cfg,
    responseFormatJsonObject := cfg.provider = "openai",
    ollamaJsonFormat := cfg.provider = "ollama",
    ollamaStreamOff := cfg.provider = "ollama" }

/-- The system message of `analyzeStoryOpenAICompatible` (lines 360-383). -/
def analysisCompatSystem (lang : Language) : String :=
  let langInstruction : String :=
    match lang with
    | .zh => "All descriptions, titles, and names MUST be in Chinese (Simplified). The \x27suggested_visual\x27 field MUST be in English."
    | .en => ""
  "You are a story analysis assistant. Analyze the folktale provided. \n            1. Generate a creative, catchy title for the story.\n            2. Extract characters, scenes, props, animals/plants, and key plot points.\n            For descriptions, ensure they are highly visual and suitable for image generation.\n            \n            For the \x27suggested_visual\x27 field in plot_points, create a highly detailed prompt for video generation. It MUST include:\n            - Detailed description of the visible action.\n            - Visual appearance of characters and setting (referencing extracted assets where possible).\n            - Lighting (e.g., \x27cinematic\x27, \x27dramatic\x27).\n            - Camera movement (e.g., \x27slow pan\x27, \x27zoom\x27).\n            - Style (e.g., \x27photorealistic\x27, \x278k\x27, \x27folklore style\x27).\n            \n            "
    ++ langInstruction ++ "\n\n            You MUST respond with valid JSON strictly matching this schema:\n            "
    ++ (stringifyJ ANALYSIS_JSON_SCHEMA_OBJECT).asString ++ "\n            "

/-- `analyzeStoryOpenAICompatible`: build the request, then interpret the
`fetch` outcome — a non-ok status raises `Model request failed` with status
and body text; otherwise the `choices[0].message.content` payload goes
through `safeJSONParse`. -/
def analyzeStoryOpenAICompatible (storyText : String) (cfg : ModelConfig) (lang : Language)
    (resp : HttpResp) : ChatRequest × Except ErrVal Json :=
  let req := buildChatRequest cfg (analysisCompatSystem lang) storyText
  let res : Except ErrVal Json :=
    if ¬ resp.ok then
      Except.error (mkErr ("Model request failed: " ++ toString resp.status ++ " " ++ resp.body))
    else
      match resp.jsonBody with
      | none => Except.error (mkErr "Unexpected end of JSON input")
      | some data =>
        match chatContent data with
        | none => Except.error (mkErr "Empty response from model")
        | some c =>
          if c = "" then Except.error (mkErr "Empty response from model")
          else safeJSONParse c.toList
  (req, res)

/-- The system message of the polish OpenAI-compatible branch (lines 787-800). -/
def polishCompatSystem (lang : Language) : String :=
  "You are a professional story editor. \n                Analyze the user\x27s story for conflicts and logical errors. Rewrite it to be better.\n                "
    ++ polishLangDirective lang ++ "\n                Return strictly valid JSON matching this schema:\n                "
    ++ (stringifyJ POLISH_JSON_SCHEMA_OBJECT).asString

/-- `polishStory`, OpenAI-compatible branch: a non-ok status raises
`Polish request failed` carrying only the status code. -/
def polishStoryCompat (storyText : String) (cfg : ModelConfig) (lang : Language)
    (resp : HttpResp) : ChatRequest × Except ErrVal Json :=
  let req := buildChatRequest cfg (polishCompatSystem lang) storyText
  let res : Except ErrVal Json :=
    if ¬ resp.ok then
      Except.error (mkErr ("Polish request failed: " ++ toString resp.status))
    else
      match resp.jsonBody with
      | none => Except.error (mkErr "Unexpected end of JSON input")
      | some data =>
        match chatContent data with
        | none => Except.error (mkErr "Empty response")
        | some c =>
          if c = "" then Except.error (mkErr "Empty response")
          else safeJSONParse c.toList
  (req, res)

/-- `analyzeStory` provider dispatch (line 195-202). -/
def analyzeStory (storyText : String) (cfg : ModelConfig) (lang : Language)
    (env : JsEnv) (oracle : ℕ → CallResult) (resp : HttpResp) : Except ErrVal Json × Trace :=
  if cfg.provider = "google" then analyzeStoryGoogle storyText cfg lang env oracle
  else ((analyzeStoryOpenAICompatible storyText cfg lang resp).2, {})

/-- `polishStory` provider dispatch (line 694-842). -/
def polishStory (storyText : String) (cfg : ModelConfig) (lang : Language)
    (env : JsEnv) (oracle : ℕ → CallResult) (resp : HttpResp) : Except ErrVal Json × Trace :=
  if cfg.provider = "google" then polishStoryGoogle storyText cfg lang env oracle
  else ((polishStoryCompat storyText cfg lang resp).2, {})

/-! ## Asset image generation, Google branch (generateAssetImage lines 442-519) -/

/-- One part of a Gemini content response: inline binary data or text.
String fields use `""` for an absent/falsy value. -/
inductive ImgPart where
  | inline (mime : String) (dat : String)
  | txt (t : String)

/-- The outcome of one image-generation call. `imagesRes` carries
`generatedImages?.[0]?.image?.imageBytes`, `contentRes` carries
`candidates?.[0]?.content?.parts`. -/
inductive ImgCallResult where
  | imagesRes (b64 : Option String)
  | contentRes (parts : Option (List ImgPart))
  | fail (e : ErrVal)

/-- One outgoing image request. -/
structure ImgRequest where
  model : String
  promptText : String
  viaImagen : Bool
deriving DecidableEq, Repr

/-- Observable trace of an image-generation call. -/
structure ImgTrace where
  reqs : List ImgRequest := []
  reselects : ℕ := 0
deriving DecidableEq, Repr

/-- Issue one image request against its oracle and record it. -/
def doImgCall (oracle : ℕ → ImgCallResult) (st : ImgTrace) (r : ImgRequest) :
    ImgCallResult × ImgTrace :=
  (oracle st.reqs.length, { st with reqs := st.reqs ++ [r] })

/-- The illustration prompt (lines 451-454). -/
def imagePromptText (description context negativePrompt : String) : String :=
  let base := "High quality, cinematic, folklore style illustration of: " ++ description
    ++ ". Context: " ++ context ++ ". Detailed, 8k, masterpiece."
  if negativePrompt ≠ "" ∧ jsTrim negativePrompt.toList ≠ [] then
    base ++ " Ensure the image does not contain: " ++ negativePrompt ++ "."
  else base

/-- First part carrying non-empty inline data (lines 493-498). -/
def firstInlinePart : List ImgPart → Option (String × String)
  | [] => none
  | .inline mime dat :: rest => if dat ≠ "" then some (mime, dat) else firstInlinePart rest
  | .txt _ :: rest => firstInlinePart rest

/-- `parts.filter(p => p.text).map(p => p.text).join(' ')`. -/
def textPartsJoined (ps : List ImgPart) : String :=
  String.intercalate " " (ps.filterMap (fun p =>
    match p with
    | .txt t => if t ≠ "" then some t else none
    | .inline _ _ => none))

/-- Distinguishes a throw from before the `try` block (escapes the catch
unmodified) from a result of the `try` body. -/
inductive AttemptOut (α : Type) where
  | beforeTry (e : ErrVal)
  | inTry (r : Except ErrVal α)

/-- One `attempt` of the Google image branch, without the catch: resolve the
client (before the `try`), dispatch on whether the model name contains
`imagen`, and interpret the response parts. -/
def imageAttemptBase (oracle : ℕ → ImgCallResult) (cfg : ModelConfig) (env : JsEnv)
    (promptText : String) (reselected : Bool) (st : ImgTrace) :
    AttemptOut String × ImgTrace :=
  if effectiveGoogleKey cfg env reselected = "" then (.beforeTry keyMissingErr, st)
  else
    let modelName := if cfg.imageModel = "" then "gemini-2.5-flash-image" else cfg.imageModel
    let viaImagen := containsSeq (lowerChars modelName.toList) "imagen".toList
    let c := doImgCall oracle st { model := modelName, promptText := promptText, viaImagen := viaImagen }
    let res : Except ErrVal String :=
      if viaImagen then
        match c.1 with
        | .fail e => Except.error e
        | .imagesRes (some b64) =>
          if b64 ≠ "" then Except.ok ("data:image/jpeg;base64," ++ b64)
          else Except.error (mkErr "No image data returned from Imagen.")
        | .imagesRes none => Except.error (mkErr "No image data returned from Imagen.")
        | .contentRes _ => Except.error (mkErr "No image data returned from Imagen.")
      else
        match c.1 with
        | .fail e => Except.error e
        | .contentRes (some parts) =>
          match firstInlinePart parts with
          | some (mime, dat) =>
            Except.ok ("data:" ++ (if mime = "" then "image/png" else mime) ++ ";base64," ++ dat)
          | none =>
            let t := textPartsJoined parts
            if t ≠ "" then
              Except.error (mkErr ("Model refused to generate image: " ++ (t.toList.take 100).asString ++ "..."))
            else Except.error (mkErr "No image generated by Gemini (Response empty)")
        | .contentRes none => Except.error (mkErr "No image generated by Gemini (Response empty)")
        | .imagesRes _ => Except.error (mkErr "No image generated by Gemini (Response empty)")
    (.inTry res, c.2)

/-- The catch of one image `attempt`: auth-class first-attempt failures with
`window.aistudio` present retry once after reselection; every other caught
error is re-thrown wrapped as `Image Generation Failed: <message>`. -/
def imageCatch (e : ErrVal) : ErrVal :=
  mkErr ("Image Generation Failed: " ++ e.message)

/-- `generateAssetImage`, Google branch: `attempt(false)` with the bounded
retry, wrapping caught errors. -/
def generateAssetImageGoogle (oracle : ℕ → ImgCallResult) (cfg : ModelConfig) (env : JsEnv)
    (description context negativePrompt : String) : Except ErrVal String × ImgTrace :=
  let p := imagePromptText description context negativePrompt
  match imageAttemptBase oracle cfg env p false {} with
  | (.beforeTry e, st) => (Except.error e, st)
  | (.inTry (.ok v), st) => (Except.ok v, st)
  | (.inTry (.error e), st) =>
    if isAuthError e && env.aistudio then
      match imageAttemptBase oracle cfg env p true { st with reselects := st.reselects + 1 } with
      | (.beforeTry e2, st2) => (Except.error e2, st2)
      | (.inTry (.ok v), st2) => (Except.ok v, st2)
      | (.inTry (.error e2), st2) => (Except.error (imageCatch e2), st2)
    else (Except.error (imageCatch e), st)

/-! ## Veo video generation (generateVeoVideo lines 594-676) -/

/-- The state of a Veo long-running operation as one SDK call reports it, or
a rejection. -/
inductive VeoOpRes where
  | op (done : Bool) (uri : Option String)
  | fail (e : ErrVal)

/-- One Veo job submission. -/
structure VeoRequest where
  model : String
  prompt : String
  image : Option String
  aspectRatio : String
  apiKey : String
deriving DecidableEq, Repr

/-- Observable trace of a `generateVeoVideo` call. -/
structure VeoTrace where
  submits : List VeoRequest := []
  polls : ℕ := 0
  downloads : List String := []
  reselects : ℕ := 0
deriving DecidableEq, Repr

/-- State threaded through a Veo call: the not-yet-consumed operation
outcomes (submission and polls draw from the same stream, in order), the
download outcomes (`none` is a successful fetch), and the trace. -/
structure VeoState where
  ops : List VeoOpRes
  dls : List (Option ErrVal)
  tr : VeoTrace := {}

/-- Modelling artefact: the finite oracle ran out of outcomes. Kept distinct
from every error the source can produce; the source itself polls
indefinitely. -/
def oracleExhausted : ErrVal := mkErr "model oracle exhausted"

/-- Strip a leading `data:image/\w+;base64,` prefix (line 631). -/
def stripDataUrlHead (s : String) : String :=
  let cs := s.toList
  if "data:image/".toList.isPrefixOf cs then
    let rest := cs.drop 11
    let w := rest.takeWhile (fun c => c.isAlphanum || c = '_')
    let rest2 := rest.drop w.length
    if w ≠ [] ∧ ";base64,".toList.isPrefixOf rest2 then (rest2.drop 8).asString else s
  else s

/-- The poll loop: while not done, fetch the operation again; returns the
final uri (or the first mid-poll rejection) plus remaining stream and poll
count. -/
def veoPollLoop : Bool → Option String → List VeoOpRes → ℕ →
    Except ErrVal (Option String) × List VeoOpRes × ℕ
  | true, uri, ops, polls => (Except.ok uri, ops, polls)
  | false, _, [], polls => (Except.error oracleExhausted, [], polls)
  | false, _, r :: ops, polls =>
    match r with
    | .fail e => (Except.error e, ops, polls + 1)
    | .op d u => veoPollLoop d u ops (polls + 1)

/-- The missing-credential error of `generateVeoVideo`. -/
def missingVeoErr : ErrVal := mkErr "Google API Key required for Veo video generation."

/-- Key selection of `generateVeoVideo` (lines 604-607) before the optional
interactive reselection: the per-call key only for a google config with a
non-empty key, else the ambient `process.env.API_KEY` (whose value depends
on whether a reselection has ever run). -/
def veoResolveKey (cfgOpt : Option ModelConfig) (env : JsEnv) (reselEver : Bool) : String :=
  let key0 := if reselEver then env.envKeyAfterSelect else env.envKey
  match cfgOpt with
  | some cfg => if cfg.provider = "google" ∧ cfg.apiKey ≠ "" then cfg.apiKey else key0
  | none => key0

/-- `config?.videoModel || 'veo-3.1-fast-generate-preview'`. -/
def veoModelName (cfgOpt : Option ModelConfig) : String :=
  match cfgOpt with
  | some cfg => if cfg.videoModel = "" then "veo-3.1-fast-generate-preview" else cfg.videoModel
  | none => "veo-3.1-fast-generate-preview"

/-- One `attempt` of `generateVeoVideo`, without the catch: resolve the key
(per-call key only for a google config with a non-empty key, else the
ambient key, else an interactive reselection when available), then submit,
poll to completion, and download the result. Key resolution happens before
the `try`; its failure is never auth-class, so routing it through the same
error channel is behaviour-equivalent. -/
def veoAttemptBase (cfgOpt : Option ModelConfig) (env : JsEnv)
    (prompt : String) (refImage : Option String) (aspect : String)
    (s : VeoState) : Except ErrVal String × VeoState :=
  let key1 := veoResolveKey cfgOpt env (s.tr.reselects > 0)
  let resolved : String × VeoState :=
    if key1 = "" ∧ env.aistudio ∧ env.hasSelectedApiKeyFn then
      (env.envKeyAfterSelect, { s with tr := { s.tr with reselects := s.tr.reselects + 1 } })
    else (key1, s)
  let key := resolved.1
  let s1 := resolved.2
  if key = "" then (Except.error missingVeoErr, s1)
  else
    let req : VeoRequest :=
      { model := veoModelName cfgOpt, prompt := prompt, image := refImage.map stripDataUrlHead,
        aspectRatio := aspect, apiKey := key }
    match s1.ops with
    | [] => (Except.error oracleExhausted,
        { s1 with tr := { s1.tr with submits := s1.tr.submits ++ [req] } })
    | r0 :: rest =>
      let s2 := { s1 with ops := rest, tr := { s1.tr with submits := s1.tr.submits ++ [req] } }
      match r0 with
      | .fail e => (Except.error e, s2)
      | .op d0 u0 =>
        let polled := veoPollLoop d0 u0 s2.ops 0
        let s3 : VeoState :=
          { ops := polled.2.1, dls := s2.dls,
            tr := { s2.tr with polls := s2.tr.polls + polled.2.2 } }
        match polled.1 with
        | .error e => (Except.error e, s3)
        | .ok none =>
          (Except.error (mkErr "Video generation failed or no URI returned."), s3)
        | .ok (some uri) =>
          let downloadUrl := uri ++ "&key=" ++ key
          let s4 := { s3 with tr := { s3.tr with downloads := s3.tr.downloads ++ [downloadUrl] } }
          match s4.dls with
          | [] => (Except.error oracleExhausted, s4)
          | d :: drest =>
            let s5 := { s4 with dls := drest }
            match d with
            | none => (Except.ok ("blob:" ++ downloadUrl), s5)
            | some e => (Except.error e, s5)

/-- `generateVeoVideo`: `attempt(false)` plus the catch wrapping the whole
`try` body — any auth-class failure of the first attempt (submission, poll,
or download) retries once after reselection when `window.aistudio` exists. -/
def generateVeoVideo (cfgOpt : Option ModelConfig) (env : JsEnv)
    (prompt : String) (refImage : Option String) (aspect : String)
    (ops : List VeoOpRes) (dls : List (Option ErrVal)) : Except ErrVal String × VeoState :=
  match veoAttemptBase cfgOpt env prompt refImage aspect { ops := ops, dls := dls } with
  | (.error e, s1) =>
    if isAuthError e && env.aistudio then
      veoAttemptBase cfgOpt env prompt refImage aspect
        { s1 with tr := { s1.tr with reselects := s1.tr.reselects + 1 } }
    else (Except.error e, s1)
  | r => r

/-! ## Claim C3: the auth-class classifier -/

/-- C3, counterexample: the claim says any message containing (case-
insensitively) the substring "not found" classifies as auth-class; but
"The model was not found" contains "not found" and the classifier returns
`false` (the source matches the full phrase "requested entity was not
found", not the bare "not found"). -/
theorem c3_counterexample :
    containsSeq (lowerChars ("The model was not found").toList) "not found".toList = true ∧
    isAuthError { message := "The model was not found" } = false := by
  decide

/-- C3, amended: the classifier returns `true` exactly when the lowercased
message contains "requested entity was not found" or "404", or the `status`
field is the string `"NOT_FOUND"`, or the `code` field is the number `404`;
and it returns `false` for "rate limit exceeded". -/
theorem c3_amended :
    (∀ e : ErrVal, isAuthError e = true ↔
      (containsSeq (lowerChars e.message.toList) "requested entity was not found".toList = true ∨
       containsSeq (lowerChars e.message.toList) "404".toList = true ∨
       e.status = some (JsPrim.s "NOT_FOUND") ∨
       e.code = some (JsPrim.n 404))) ∧
    isAuthError (mkErr "rate limit exceeded") = false := by
  refine ⟨fun e => ?_, by decide⟩
  simp only [isAuthError, Bool.or_eq_true, beq_iff_eq]
  tauto

/-- C3, witness for the amended theorem at a concrete error value. -/
theorem c3_amended_witness :
    isAuthError { message := "HTTP 404", status := none, code := none } = true :=
  (c3_amended.1 _).mpr (Or.inr (Or.inl (by decide)))

/-! ## Claim C6: extractor behaviour on inputs without a brace-delimited span -/

/-- C6, counterexample: the claim says every input with no `\x7b`- or
`[`-delimited span fails with the malformed-response error; but the input
`true` has no such span and the extractor succeeds (it is a valid JSON
scalar). -/
theorem c6_counterexample :
    safeJSONParse "true".toList = Except.ok (Json.bool true) ∧
    idxOfC "true".toList '\x7b' = none ∧ idxOfC "true".toList '[' = none :=
  ⟨rfl, by decide, by decide⟩

/-- C6, amended: whenever both the strict parse and the comma-repaired parse
of the cleaned text fail, the extractor fails with the single typed
malformed-response error; and on every input it either succeeds or fails
with exactly that error (it raises nothing else). -/
theorem c6_amended (cs : List Char) :
    (jsonParse (extractSpan (cleanedText cs)) = none →
      jsonParse (fixCommas (extractSpan (cleanedText cs))) = none →
      safeJSONParse cs = Except.error malformedErr) ∧
    ((∃ v, safeJSONParse cs = Except.ok v) ∨ safeJSONParse cs = Except.error malformedErr) := by
  unfold safeJSONParse safeJSONParseFull
  constructor
  · intro h1 h2
    simp [h1, h2]
  · cases h1 : jsonParse (extractSpan (cleanedText cs)) with
    | some v => exact Or.inl ⟨v, by simp [h1]⟩
    | none =>
      cases h2 : jsonParse (fixCommas (extractSpan (cleanedText cs))) with
      | some v => exact Or.inl ⟨v, by simp [h1, h2]⟩
      | none => exact Or.inr (by simp [h1, h2])

/-- C6, witness: a prose input with no JSON-like span fails with the single
malformed-response error. -/
theorem c6_amended_witness :
    safeJSONParse "no parseable payload here".toList = Except.error malformedErr :=
  (c6_amended _).1 (by rfl) (by rfl)

/-! ## Claim C7: diagnostics carried by the malformed-response failure -/

/-- C7, counterexample: the claim says the raised error includes the
original raw input text; but the raised error is the fixed
`malformedErr` whose message does not contain the input — the raw text goes
only to the console log (second component). -/
theorem c7_counterexample :
    safeJSONParseFull "unparseable-QQQ".toList
      = (Except.error malformedErr, ["unparseable-QQQ".toList]) ∧
    containsSeq malformedMsg.toList "unparseable-QQQ".toList = false :=
  ⟨rfl, by decide⟩

/-- C7, amended: when both parse attempts fail, the extractor raises the
fixed malformed-response error (whose message does not vary with the input)
and logs the original raw text via `console.error` for diagnostics. -/
theorem c7_amended (cs : List Char)
    (h1 : jsonParse (extractSpan (cleanedText cs)) = none)
    (h2 : jsonParse (fixCommas (extractSpan (cleanedText cs))) = none) :
    safeJSONParseFull cs = (Except.error malformedErr, [cs]) := by
  unfold safeJSONParseFull
  simp [h1, h2]

/-- C7, witness at a concrete unparseable input. -/
theorem c7_amended_witness :
    safeJSONParseFull "QQ raw diagnostics QQ".toList
      = (Except.error malformedErr, ["QQ raw diagnostics QQ".toList]) :=
  c7_amended _ (by rfl) (by rfl)

/-! ## Claim C8: non-success HTTP status on the OpenAI-compatible path -/

/-- C8, counterexample: the claim says both structured-generation calls fail
with an error carrying the status code and the body text; but the polish
branch raises `Polish request failed: 500`, which does not contain the body
text "boom". -/
theorem c8_counterexample :
    (polishStoryCompat "s" { provider := "openai", apiKey := "sk", textModel := "m", baseUrl := "b" }
        Language.en { ok := false, status := 500, body := "boom" }).2
      = Except.error (mkErr "Polish request failed: 500") ∧
    containsSeq "Polish request failed: 500".toList "boom".toList = false :=
  ⟨rfl, by decide⟩

/-- C8, amended: on a non-ok response, the analysis call fails with
`Model request failed` carrying both the status code and the body text,
while the polish call fails with `Polish request failed` carrying only the
status code; the dispatchers surface these for every non-google provider. -/
theorem c8_amended (storyText : String) (cfg : ModelConfig) (lang : Language) (resp : HttpResp)
    (env : JsEnv) (oracle : ℕ → CallResult)
    (h : resp.ok = false) (hng : ¬ cfg.provider = "google") :
    (analyzeStoryOpenAICompatible storyText cfg lang resp).2
      = Except.error (mkErr ("Model request failed: " ++ toString resp.status ++ " " ++ resp.body)) ∧
    (polishStoryCompat storyText cfg lang resp).2
      = Except.error (mkErr ("Polish request failed: " ++ toString resp.status)) ∧
    analyzeStory storyText cfg lang env oracle resp
      = (Except.error (mkErr ("Model request failed: " ++ toString resp.status ++ " " ++ resp.body)), {}) ∧
    polishStory storyText cfg lang env oracle resp
      = (Except.error (mkErr ("Polish request failed: " ++ toString resp.status)), {}) := by
  refine ⟨?_, ?_, ?_, ?_⟩ <;>
    simp [analyzeStoryOpenAICompatible, polishStoryCompat, analyzeStory, polishStory, h, hng]

/-- C8, witness at a concrete 500 response with body "boom". -/
theorem c8_amended_witness :
    (analyzeStoryOpenAICompatible "s" { provider := "openai" } Language.en
      { ok := false, status := 500, body := "boom" }).2
      = Except.error (mkErr ("Model request failed: " ++ toString (500 : ℕ) ++ " " ++ "boom")) :=
  (c8_amended "s" { provider := "openai" } Language.en
    { ok := false, status := 500, body := "boom" } {} (fun _ => CallResult.ok none)
    rfl (by decide)).1

/-! ## Claim C1: bounded retry-once on the primary provider -/

/-- C1: for `analyzeStory` and `polishStory` with provider google, when the
first (strict) request fails with an auth-class error and `window.aistudio`
is available, the reselection capability runs exactly once, the protocol is
retried exactly once, and a successful second attempt resolves with its
parsed result having issued exactly two underlying requests. -/
theorem c1_theorem (storyText : String) (cfg : ModelConfig) (lang : Language)
    (env : JsEnv) (oracle : ℕ → CallResult) (resp : HttpResp)
    (e : ErrVal) (t : String) (v : Json)
    (hg : cfg.provider = "google")
    (hk1 : effectiveGoogleKey cfg env false ≠ "")
    (hk2 : effectiveGoogleKey cfg env true ≠ "")
    (ha : env.aistudio = true)
    (he : isAuthError e = true)
    (h0 : oracle 0 = CallResult.fail e)
    (h1 : oracle 1 = CallResult.ok (some t))
    (hp : safeJSONParse t.toList = Except.ok v) :
    analyzeStory storyText cfg lang env oracle resp
      = (Except.ok v,
         { reqs := [strictReq cfg (analysisPrompt storyText lang),
                    strictReq cfg (analysisPrompt storyText lang)], reselects := 1 }) ∧
    polishStory storyText cfg lang env oracle resp
      = (Except.ok v,
         { reqs := [strictReq cfg (polishPrompt storyText lang),
                    strictReq cfg (polishPrompt storyText lang)], reselects := 1 }) := by
  have hp' : safeJSONParse t.data = Except.ok v := hp
  constructor <;>
    simp [analyzeStory, polishStory, analyzeStoryGoogle, polishStoryGoogle, hg,
      googleStructuredCall, googleAttemptBase, doCall, callOutcome,
      hk1, hk2, ha, he, h0, h1, hp']

/-- C1, witness: a concrete run with an auth failure then a success. -/
theorem c1_theorem_witness :
    analyzeStory "s" { provider := "google", apiKey := "k", textModel := "m" } Language.en
      { aistudio := true }
      (fun n => if n = 0 then CallResult.fail (mkErr "Requested entity was not found.")
                else CallResult.ok (some "\x7b\"title\":\"T\"\x7d"))
      { ok := true, status := 200, body := "" }
      = (Except.ok (Json.obj [fld "title" (jstr "T")]),
         { reqs := [strictReq { provider := "google", apiKey := "k", textModel := "m" }
                      (analysisPrompt "s" Language.en),
                    strictReq { provider := "google", apiKey := "k", textModel := "m" }
                      (analysisPrompt "s" Language.en)], reselects := 1 }) :=
  ( c1_theorem "s" _ Language.en _ _ _ (mkErr "Requested entity was not found.")
    "\x7b\"title\":\"T\"\x7d" (Json.obj [fld "title" (jstr "T")])
    rfl (by decide) (by decide) rfl (by decide) rfl rfl rfl).1

/-! ## Claim C2: strict-to-fallback degrade on the primary provider -/

/-- C2: on the primary provider, a non-auth-class failure of the strict
request triggers exactly one fallback request with schema enforcement off,
the schema serialized into the prompt text, and the same sampling
parameters; an auth-class failure triggers no fallback and propagates to
the retry layer. -/
theorem c2_theorem (storyText : String) (cfg : ModelConfig) (lang : Language)
    (env : JsEnv) (oracle : ℕ → CallResult) (resp : HttpResp) (e : ErrVal)
    (hg : cfg.provider = "google")
    (hk : effectiveGoogleKey cfg env false ≠ "")
    (hns : env.aistudio = false)
    (h0 : oracle 0 = CallResult.fail e) :
    (isAuthError e = false →
      (analyzeStory storyText cfg lang env oracle resp).2
        = { reqs := [strictReq cfg (analysisPrompt storyText lang),
                     fallbackReq cfg (analysisFallbackContents (analysisPrompt storyText lang))],
            reselects := 0 } ∧
      (polishStory storyText cfg lang env oracle resp).2
        = { reqs := [strictReq cfg (polishPrompt storyText lang),
                     fallbackReq cfg (polishFallbackContents (polishPrompt storyText lang))],
            reselects := 0 }) ∧
    (isAuthError e = true →
      analyzeStory storyText cfg lang env oracle resp
        = (Except.error e, { reqs := [strictReq cfg (analysisPrompt storyText lang)], reselects := 0 }) ∧
      polishStory storyText cfg lang env oracle resp
        = (Except.error e, { reqs := [strictReq cfg (polishPrompt storyText lang)], reselects := 0 })) ∧
    (∀ P : String,
      (strictReq cfg P).strictSchema = true ∧ (strictReq cfg P).mimeJson = true ∧
      (fallbackReq cfg (analysisFallbackContents P)).strictSchema = false ∧
      (fallbackReq cfg (analysisFallbackContents P)).mimeJson = true ∧
      (fallbackReq cfg (analysisFallbackContents P)).contents
        = P ++ "\n\nIMPORTANT: Return the result as a valid JSON object matching this structure:\n"
            ++ (stringifyJ ANALYSIS_JSON_SCHEMA_OBJECT).asString ∧
      (fallbackReq cfg (polishFallbackContents P)).contents
        = P ++ "\n\nIMPORTANT: Return valid JSON matching this structure:\n"
            ++ (stringifyJ POLISH_JSON_SCHEMA_OBJECT).asString ∧
      (fallbackReq cfg (analysisFallbackContents P)).temperature = (strictReq cfg P).temperature ∧
      (fallbackReq cfg (analysisFallbackContents P)).topP = (strictReq cfg P).topP ∧
      (fallbackReq cfg (analysisFallbackContents P)).maxOutputTokens = (strictReq cfg P).maxOutputTokens) := by
  refine ⟨fun hne => ?_, fun he => ?_, fun P => ?_⟩
  · constructor <;>
      · simp [analyzeStory, polishStory, analyzeStoryGoogle, polishStoryGoogle, hg,
          googleStructuredCall, googleAttemptBase, doCall, callOutcome, hk, hns, hne, h0]
        split <;> simp_all
  · constructor <;>
      simp [analyzeStory, polishStory, analyzeStoryGoogle, polishStoryGoogle, hg,
        googleStructuredCall, googleAttemptBase, doCall, callOutcome, hk, hns, he, h0]
  · exact ⟨rfl, rfl, rfl, rfl, rfl, rfl, rfl, rfl, rfl⟩

/-- C2, witness: a concrete run where the strict request fails with a
schema error and the fallback is issued. -/
theorem c2_theorem_witness :
    (analyzeStory "s" { provider := "google", apiKey := "k", textModel := "m" } Language.en
      { aistudio := false }
      (fun n => if n = 0 then CallResult.fail (mkErr "schema rpc error") else CallResult.ok none)
      { ok := true, status := 200, body := "" }).2
      = { reqs := [strictReq { provider := "google", apiKey := "k", textModel := "m" }
                     (analysisPrompt "s" Language.en),
                   fallbackReq { provider := "google", apiKey := "k", textModel := "m" }
                     (analysisFallbackContents (analysisPrompt "s" Language.en))],
          reselects := 0 } :=
  ( ( c2_theorem "s" _ Language.en _ _ _ (mkErr "schema rpc error")
    rfl (by decide) rfl rfl).1 (by decide)).1

/-! ## Claim C5: auth-class failure without a reselection capability -/

/-- C5, counterexample: the claim says every primary-provider generation
call in this scenario rejects with the original auth-class error; but the
image engine rejects with a wrapping error (`Image Generation Failed: ...`)
that differs from the original error value. -/
theorem c5_counterexample :
    (generateAssetImageGoogle
        (fun _ => ImgCallResult.fail (mkErr "Requested entity was not found."))
        { provider := "google", apiKey := "k" } { aistudio := false } "d" "c" "").1
      = Except.error (mkErr "Image Generation Failed: Requested entity was not found.") ∧
    mkErr "Image Generation Failed: Requested entity was not found."
      ≠ mkErr "Requested entity was not found." ∧
    isAuthError (mkErr "Requested entity was not found.") = true :=
  ⟨rfl, by decide, by decide⟩

/-- C5, amended: with no reselection capability, an auth-class failure of
the first attempt rejects immediately — no reselection, no further request;
analysis, polish and video reject with the original error value, while
image generation rejects with an error wrapping the original message. -/
theorem c5_amended (storyText description context negativePrompt prompt aspect : String)
    (cfg : ModelConfig) (lang : Language) (env : JsEnv)
    (oracle : ℕ → CallResult) (imgOracle : ℕ → ImgCallResult) (resp : HttpResp)
    (e : ErrVal) (refImage : Option String) (dls : List (Option ErrVal))
    (hg : cfg.provider = "google")
    (hck : cfg.apiKey ≠ "")
    (hns : env.aistudio = false)
    (he : isAuthError e = true)
    (h0 : oracle 0 = CallResult.fail e)
    (hi0 : imgOracle 0 = ImgCallResult.fail e) :
    analyzeStory storyText cfg lang env oracle resp
      = (Except.error e, { reqs := [strictReq cfg (analysisPrompt storyText lang)], reselects := 0 }) ∧
    polishStory storyText cfg lang env oracle resp
      = (Except.error e, { reqs := [strictReq cfg (polishPrompt storyText lang)], reselects := 0 }) ∧
    (generateVeoVideo (some cfg) env prompt refImage aspect [VeoOpRes.fail e] dls).1
      = Except.error e ∧
    (generateVeoVideo (some cfg) env prompt refImage aspect [VeoOpRes.fail e] dls).2.tr.reselects = 0 ∧
    (generateVeoVideo (some cfg) env prompt refImage aspect [VeoOpRes.fail e] dls).2.tr.submits.length = 1 ∧
    (generateAssetImageGoogle imgOracle cfg env description context negativePrompt).1
      = Except.error (imageCatch e) ∧
    (generateAssetImageGoogle imgOracle cfg env description context negativePrompt).2.reselects = 0 ∧
    (generateAssetImageGoogle imgOracle cfg env description context negativePrompt).2.reqs.length = 1 := by
  have hk : effectiveGoogleKey cfg env false ≠ "" := by
    simp [effectiveGoogleKey, hck]
  refine ⟨?_, ?_, ?_, ?_, ?_, ?_, ?_, ?_⟩ <;>
    simp [analyzeStory, polishStory, analyzeStoryGoogle, polishStoryGoogle, hg,
      googleStructuredCall, googleAttemptBase, doCall, callOutcome, hk, hck, hns, he, h0,
      generateVeoVideo, veoAttemptBase, veoResolveKey, veoPollLoop,
      generateAssetImageGoogle, imageAttemptBase, doImgCall, hi0]

/-- C5, witness: a concrete run for the analyze conjunct. -/
theorem c5_amended_witness :
    analyzeStory "s" { provider := "google", apiKey := "k", textModel := "m" } Language.en
      { aistudio := false }
      (fun _ => CallResult.fail (mkErr "Requested entity was not found."))
      { ok := true, status := 200, body := "" }
      = (Except.error (mkErr "Requested entity was not found."),
         { reqs := [strictReq { provider := "google", apiKey := "k", textModel := "m" }
                      (analysisPrompt "s" Language.en)], reselects := 0 }) :=
  (c5_amended "s" "d" "c" "" "p" "16:9" _ Language.en _ _
    (fun _ => ImgCallResult.fail (mkErr "Requested entity was not found."))
    { ok := true, status := 200, body := "" }
    (mkErr "Requested entity was not found.") none []
    rfl (by decide) rfl (by decide) rfl rfl).1

/-! ## Claim C9: scope of the retry in the video engine -/

/-- C9, counterexample: the claim says the bounded retry applies only to
submission failures and never to polling-phase failures; but here the
submission succeeds (the first operation result is consumed by submission),
the first poll rejects with an auth-class error, and the engine still
reselects once and resubmits, resolving successfully. -/
theorem c9_counterexample :
    (generateVeoVideo (some { provider := "google", apiKey := "k" }) { aistudio := true }
        "p" none "16:9"
        [VeoOpRes.op false none, VeoOpRes.fail (mkErr "Requested entity was not found."),
         VeoOpRes.op true (some "u?x=1")] [none]).1
      = Except.ok "blob:u?x=1&key=k" ∧
    (generateVeoVideo (some { provider := "google", apiKey := "k" }) { aistudio := true }
        "p" none "16:9"
        [VeoOpRes.op false none, VeoOpRes.fail (mkErr "Requested entity was not found."),
         VeoOpRes.op true (some "u?x=1")] [none]).2.tr.reselects = 1 ∧
    (generateVeoVideo (some { provider := "google", apiKey := "k" }) { aistudio := true }
        "p" none "16:9"
        [VeoOpRes.op false none, VeoOpRes.fail (mkErr "Requested entity was not found."),
         VeoOpRes.op true (some "u?x=1")] [none]).2.tr.submits.length = 2 ∧
    (generateVeoVideo (some { provider := "google", apiKey := "k" }) { aistudio := true }
        "p" none "16:9"
        [VeoOpRes.op false none, VeoOpRes.fail (mkErr "Requested entity was not found."),
         VeoOpRes.op true (some "u?x=1")] [none]).2.tr.polls = 1 ∧
    isAuthError (mkErr "Requested entity was not found.") = true :=
  ⟨rfl, rfl, rfl, rfl, by decide⟩

/-- C9, amended: the catch wraps the whole attempt, so a first-attempt
auth-class failure raised during the polling phase (after a successful
submission) also triggers the reselect-and-retry-once behaviour: the call
then equals a fresh attempt over the remaining oracle with one reselection
and the first submission recorded. -/
theorem c9_amended (cfgOpt : Option ModelConfig) (env : JsEnv)
    (prompt aspect : String) (refImage : Option String)
    (e : ErrVal) (rest : List VeoOpRes) (dls : List (Option ErrVal))
    (he : isAuthError e = true) (ha : env.aistudio = true)
    (hk : veoResolveKey cfgOpt env false ≠ "") :
    generateVeoVideo cfgOpt env prompt refImage aspect
        (VeoOpRes.op false none :: VeoOpRes.fail e :: rest) dls
      = veoAttemptBase cfgOpt env prompt refImage aspect
          { ops := rest, dls := dls,
            tr := { submits := [{ model := veoModelName cfgOpt, prompt := prompt,
                                  image := refImage.map stripDataUrlHead, aspectRatio := aspect,
                                  apiKey := veoResolveKey cfgOpt env false }],
                    polls := 1, downloads := [], reselects := 1 } } := by
  simp [generateVeoVideo, veoAttemptBase, veoPollLoop, hk, he, ha]

/-- C9, witness: the amended behaviour at a concrete trace. -/
theorem c9_amended_witness :
    generateVeoVideo (some { provider := "google", apiKey := "k" }) { aistudio := true }
        "p" none "16:9"
        (VeoOpRes.op false none :: VeoOpRes.fail (mkErr "Requested entity was not found.")
          :: [VeoOpRes.op true (some "u")]) [none]
      = veoAttemptBase (some { provider := "google", apiKey := "k" }) { aistudio := true }
          "p" none "16:9"
          { ops := [VeoOpRes.op true (some "u")], dls := [none],
            tr := { submits := [{ model := veoModelName (some { provider := "google", apiKey := "k" }),
                                  prompt := "p", image := none, aspectRatio := "16:9",
                                  apiKey := veoResolveKey (some { provider := "google", apiKey := "k" })
                                    { aistudio := true } false }],
                    polls := 1, downloads := [], reselects := 1 } } :=
  c9_amended (some { provider := "google", apiKey := "k" }) { aistudio := true }
    "p" "16:9" none (mkErr "Requested entity was not found.")
    [VeoOpRes.op true (some "u")] [none] (by decide) rfl (by decide)

/-! ## Claim C10: credential selection in the video engine -/

/-- Any error produced by the poll loop is either the finite-oracle
artefact or a rejection drawn from the consumed stream. -/
theorem veoPollLoop_error_mem (ops : List VeoOpRes) :
    ∀ (d : Bool) (u : Option String) (n : ℕ) (e' : ErrVal),
      (veoPollLoop d u ops n).1 = Except.error e' →
      e' = oracleExhausted ∨ VeoOpRes.fail e' ∈ ops := by
  induction ops with
  | nil =>
    intro d u n e' h
    cases d <;> simp [veoPollLoop] at h
    · exact Or.inl h.symm
  | cons r rest ih =>
    intro d u n e' h
    cases d with
    | true => simp [veoPollLoop] at h
    | false =>
      cases r with
      | fail e2 =>
        simp [veoPollLoop] at h
        exact Or.inr (by simp [h])
      | op d2 u2 =>
        have := ih d2 u2 (n + 1) e' (by simpa [veoPollLoop] using h)
        rcases this with h1 | h1
        · exact Or.inl h1
        · exact Or.inr (List.mem_cons_of_mem _ h1)

/-- The poll loop only consumes from its stream: the remainder is made of
elements of the input stream. -/
theorem veoPollLoop_rest_mem (ops : List VeoOpRes) :
    ∀ (d : Bool) (u : Option String) (n : ℕ) (x : VeoOpRes),
      x ∈ (veoPollLoop d u ops n).2.1 → x ∈ ops := by
  induction ops with
  | nil =>
    intro d u n x h
    cases d <;> simp [veoPollLoop] at h
  | cons r rest ih =>
    intro d u n x h
    cases d with
    | true => simpa [veoPollLoop] using h
    | false =>
      cases r with
      | fail e2 =>
        simp [veoPollLoop] at h
        exact List.mem_cons_of_mem _ h
      | op d2 u2 =>
        exact List.mem_cons_of_mem _ (ih d2 u2 (n + 1) x (by simpa [veoPollLoop] using h))

/-- One Veo attempt with a resolvable key never produces the
missing-credential error, provided the oracle streams never inject an error
equal to it; and its remaining streams are drawn from the input streams. -/
theorem veoAttemptBase_no_missing (cfgOpt : Option ModelConfig) (env : JsEnv)
    (prompt aspect : String) (refImage : Option String) (s : VeoState)
    (hk : veoResolveKey cfgOpt env (s.tr.reselects > 0) ≠ "")
    (hops : ∀ e', VeoOpRes.fail e' ∈ s.ops → e' ≠ missingVeoErr)
    (hdls : ∀ e', some e' ∈ s.dls → e' ≠ missingVeoErr) :
    (veoAttemptBase cfgOpt env prompt refImage aspect s).1 ≠ Except.error missingVeoErr ∧
    (∀ x ∈ (veoAttemptBase cfgOpt env prompt refImage aspect s).2.ops, x ∈ s.ops) ∧
    (∀ x ∈ (veoAttemptBase cfgOpt env prompt refImage aspect s).2.dls, x ∈ s.dls) := by
  have hdistinct1 : oracleExhausted ≠ missingVeoErr := by decide
  have hdistinct2 : mkErr "Video generation failed or no URI returned." ≠ missingVeoErr := by decide
  unfold veoAttemptBase
  simp only [hk, if_neg, false_and, ite_false]
  cases hops' : s.ops with
  | nil =>
    refine ⟨by simpa using hdistinct1, by simp, by simp⟩
  | cons r0 rest =>
    have hmem0 : ∀ x ∈ rest, x ∈ s.ops := fun x hx => by
      rw [hops']; exact List.mem_cons_of_mem _ hx
    cases r0 with
    | fail e2 =>
      refine ⟨?_, by intro x hx; simp at hx; exact List.mem_cons_of_mem _ hx, by simp⟩
      have hin : VeoOpRes.fail e2 ∈ s.ops := by simp [hops']
      intro hcon
      exact hops e2 hin (by simpa using hcon)
    | op d0 u0 =>
      have hpollops : ∀ x ∈ (veoPollLoop d0 u0 rest 0).2.1, x ∈ s.ops := fun x hx =>
        hmem0 x (veoPollLoop_rest_mem rest d0 u0 0 x hx)
      have hpollerr : ∀ e', (veoPollLoop d0 u0 rest 0).1 = Except.error e' →
          e' ≠ missingVeoErr := by
        intro e' h
        rcases veoPollLoop_error_mem rest d0 u0 0 e' h with h1 | h1
        · rw [h1]; exact hdistinct1
        · exact hops e' (hmem0 _ h1)
      rcases hP : veoPollLoop d0 u0 rest 0 with ⟨pres, prest, pn⟩
      rw [hP] at hpollops hpollerr
      have hpollrest : ∀ x ∈ prest, x ∈ rest := fun x hx =>
        veoPollLoop_rest_mem rest d0 u0 0 x (by rw [hP]; exact hx)
      simp only [hP]
      cases pres with
      | error e2 =>
        refine ⟨?_, by intro x hx; simp at hx; exact List.mem_cons_of_mem _ (hpollrest x hx), by simp⟩
        intro hcon
        exact hpollerr e2 rfl (by simpa using hcon)
      | ok uriOpt =>
        cases uriOpt with
        | none =>
          refine ⟨by simpa using hdistinct2,
            by intro x hx; simp at hx; exact List.mem_cons_of_mem _ (hpollrest x hx), by simp⟩
        | some uri =>
          cases hd : s.dls with
          | nil =>
            refine ⟨by simpa using hdistinct1,
              by intro x hx; simp at hx; exact List.mem_cons_of_mem _ (hpollrest x hx), by simp⟩
          | cons dd drest =>
            have hdmem : ∀ x ∈ drest, x ∈ s.dls := fun x hx => by
              rw [hd]; exact List.mem_cons_of_mem _ hx
            cases dd with
            | none =>
              refine ⟨by simp,
                by intro x hx; simp at hx; exact List.mem_cons_of_mem _ (hpollrest x hx),
                by intro x hx; simp at hx; exact List.mem_cons_of_mem _ hx⟩
            | some e2 =>
              refine ⟨?_,
                by intro x hx; simp at hx; exact List.mem_cons_of_mem _ (hpollrest x hx),
                by intro x hx; simp at hx; exact List.mem_cons_of_mem _ hx⟩
              have hin : some e2 ∈ s.dls := by simp [hd]
              intro hcon
              exact hdls e2 hin (by simpa using hcon)

/-- C10: the per-call key is used exactly when the config is present, its
provider is google and its key is non-empty; in every other case the
ambient fallback key is read instead; and the call fails with the
missing-credential error exactly in the situations where the fallback key
is absent even after the optional interactive reselection. -/
theorem c10_theorem (cfgOpt : Option ModelConfig) (env : JsEnv)
    (prompt aspect : String) (refImage : Option String)
    (ops : List VeoOpRes) (dls : List (Option ErrVal)) :
    (∀ cfg, cfgOpt = some cfg → cfg.provider = "google" → cfg.apiKey ≠ "" →
      ∀ r, veoResolveKey cfgOpt env r = cfg.apiKey) ∧
    (∀ cfg, cfgOpt = some cfg → (cfg.provider ≠ "google" ∨ cfg.apiKey = "") →
      ∀ r, veoResolveKey cfgOpt env r = (if r then env.envKeyAfterSelect else env.envKey)) ∧
    (cfgOpt = none →
      ∀ r, veoResolveKey cfgOpt env r = (if r then env.envKeyAfterSelect else env.envKey)) ∧
    (veoResolveKey cfgOpt env false = "" → env.aistudio = true → env.hasSelectedApiKeyFn = true →
      env.envKeyAfterSelect = "" →
      generateVeoVideo cfgOpt env prompt refImage aspect ops dls
        = (Except.error missingVeoErr,
           { ops := ops, dls := dls,
             tr := { submits := [], polls := 0, downloads := [], reselects := 1 } })) ∧
    (veoResolveKey cfgOpt env false = "" → (env.aistudio = false ∨ env.hasSelectedApiKeyFn = false) →
      generateVeoVideo cfgOpt env prompt refImage aspect ops dls
        = (Except.error missingVeoErr, { ops := ops, dls := dls, tr := {} })) ∧
    (veoResolveKey cfgOpt env false ≠ "" → veoResolveKey cfgOpt env true ≠ "" →
      (∀ e', VeoOpRes.fail e' ∈ ops → e' ≠ missingVeoErr) →
      (∀ e', some e' ∈ dls → e' ≠ missingVeoErr) →
      (generateVeoVideo cfgOpt env prompt refImage aspect ops dls).1
        ≠ Except.error missingVeoErr) := by
  refine ⟨?_, ?_, ?_, ?_, ?_, ?_⟩
  · rintro cfg rfl hpg hk r
    simp [veoResolveKey, hpg, hk]
  · rintro cfg rfl hother r
    rcases hother with h | h <;> simp [veoResolveKey, h]
  · rintro rfl r
    simp [veoResolveKey]
  · intro hk0 ha hh hafter
    simp [generateVeoVideo, veoAttemptBase, hk0, ha, hh, hafter, missingVeoErr, isAuthError,
      mkErr, containsSeq, lowerChars]
  · intro hk0 hcap
    rcases hcap with h | h <;>
      simp [generateVeoVideo, veoAttemptBase, hk0, h, missingVeoErr, isAuthError,
        mkErr, containsSeq, lowerChars]
  · intro hk1 hk2 hops hdls
    have base1 := veoAttemptBase_no_missing cfgOpt env prompt aspect refImage
      { ops := ops, dls := dls } (by simpa using hk1) (by simpa using hops) (by simpa using hdls)
    unfold generateVeoVideo
    cases hres : veoAttemptBase cfgOpt env prompt refImage aspect { ops := ops, dls := dls } with
    | mk r1 s1 =>
      cases r1 with
      | ok v => simp
      | error e =>
        by_cases hretry : isAuthError e && env.aistudio
        · simp only [hretry, ite_true]
          have hops1 : ∀ e', VeoOpRes.fail e' ∈ s1.ops → e' ≠ missingVeoErr := by
            intro e' he'
            exact hops e' (by have := base1.2.1 _ (by rw [hres] at *; exact he'); simpa using this)
          have hdls1 : ∀ e', some e' ∈ s1.dls → e' ≠ missingVeoErr := by
            intro e' he'
            exact hdls e' (by have := base1.2.2 _ (by rw [hres] at *; exact he'); simpa using this)
          have base2 := veoAttemptBase_no_missing cfgOpt env prompt aspect refImage
            { s1 with tr := { s1.tr with reselects := s1.tr.reselects + 1 } }
            (by simpa using hk2) (by simpa using hops1) (by simpa using hdls1)
          exact base2.1
        · simp only [hretry, ite_false]
          have := base1.1
          rw [hres] at this
          simpa using this

/-- C10, witness: with no per-call google key, no ambient key, and a
reselection that still yields no key, the call fails with the
missing-credential error after one reselection and no submission. -/
theorem c10_theorem_witness :
    generateVeoVideo (some { provider := "openai", apiKey := "sk" })
        { aistudio := true, hasSelectedApiKeyFn := true } "p" none "16:9" [] []
      = (Except.error missingVeoErr,
         { ops := [], dls := [],
           tr := { submits := [], polls := 0, downloads := [], reselects := 1 } }) :=
  (c10_theorem (some { provider := "openai", apiKey := "sk" })
    { aistudio := true, hasSelectedApiKeyFn := true } "p" "16:9" none [] []).2.2.2.1
    (by decide) rfl rfl rfl

/-! ## Claim C4: extraction round-trip

The round-trip theorem is proved for documents over a conservative
character class: string content at least `0x20` and free of quotes,
backslashes, braces, brackets, backticks and commas (so serialization needs
no escaping, and the trailing-comma repair regex cannot fire inside string
content), and surrounding prose free of braces, brackets and backticks (so
the span heuristics find the document). The counterexample shows the claim
is false for arbitrary prose. -/

/-- Characters allowed in benign document strings. -/
def benignChar (c : Char) : Bool :=
  0x20 ≤ c.toNat &&
    !(c = '"' || c = '\\' || c = '\x7b' || c = '\x7d' || c = '[' || c = ']' ||
      c = Char.ofNat 96 || c = ',')

/-- A benign string: all characters benign. -/
def benignStr (s : List Char) : Bool := s.all benignChar

mutual

/-- Benign documents: built from benign strings, booleans, null, arrays and
objects (no numbers — the two target shapes contain none). -/
def benignJ : Json → Bool
  | .str s => benignStr s
  | .num _ => false
  | .bool _ => true
  | .null => true
  | .arr xs => benignL xs
  | .obj ms => benignM ms

/-- Benign element lists. -/
def benignL : List Json → Bool
  | [] => true
  | x :: r => benignJ x && benignL r

/-- Benign member lists. -/
def benignM : List (List Char × Json) → Bool
  | [] => true
  | (k, v) :: r => benignStr k && benignJ v && benignM r

end

mutual

/-- Fuel sufficient for `parseVal` on the serialization of a value. -/
def jfuel : Json → ℕ
  | .arr xs => lfuel xs + 1
  | .obj ms => mfuel ms + 1
  | _ => 1

/-- Fuel sufficient for `parseElems` on serialized elements. -/
def lfuel : List Json → ℕ
  | [] => 0
  | x :: r => jfuel x + lfuel r + 1

/-- Fuel sufficient for `parseMembers` on serialized members. -/
def mfuel : List (List Char × Json) → ℕ
  | [] => 0
  | (_, v) :: r => jfuel v + mfuel r + 1

end

/-- `skipWs` is the identity on lists starting with a non-whitespace char. -/
theorem skipWs_cons_neg {c : Char} (h : isJsonWs c = false) (l : List Char) :
    skipWs (c :: l) = c :: l := by
  simp [skipWs, List.dropWhile_cons, h]

/-- `skipWs` no-ops for the concrete structural characters. -/
theorem skipWs_quote (l : List Char) : skipWs ('"' :: l) = '"' :: l :=
  skipWs_cons_neg (by decide) l

/-- `skipWs` no-op on an opening brace. -/
theorem skipWs_lbrace (l : List Char) : skipWs ('\x7b' :: l) = '\x7b' :: l :=
  skipWs_cons_neg (by decide) l

/-- `skipWs` no-op on a closing brace. -/
theorem skipWs_rbrace (l : List Char) : skipWs ('\x7d' :: l) = '\x7d' :: l :=
  skipWs_cons_neg (by decide) l

/-- `skipWs` no-op on an opening bracket. -/
theorem skipWs_lbrack (l : List Char) : skipWs ('[' :: l) = '[' :: l :=
  skipWs_cons_neg (by decide) l

/-- `skipWs` no-op on a closing bracket. -/
theorem skipWs_rbrack (l : List Char) : skipWs (']' :: l) = ']' :: l :=
  skipWs_cons_neg (by decide) l

/-- `skipWs` no-op on a comma. -/
theorem skipWs_comma (l : List Char) : skipWs (',' :: l) = ',' :: l :=
  skipWs_cons_neg (by decide) l

/-- `skipWs` no-op on a colon. -/
theorem skipWs_colon (l : List Char) : skipWs (':' :: l) = ':' :: l :=
  skipWs_cons_neg (by decide) l

/-- Unpack the benign character class. -/
theorem benignChar_spec {c : Char} (h : benignChar c = true) :
    0x20 ≤ c.toNat ∧ c ≠ '"' ∧ c ≠ '\\' ∧ c ≠ '\x7b' ∧ c ≠ '\x7d' ∧ c ≠ '[' ∧ c ≠ ']' ∧
      c ≠ Char.ofNat 96 ∧ c ≠ ',' := by
  unfold benignChar at h
  simp only [Bool.and_eq_true, Bool.not_eq_true', Bool.or_eq_false_iff,
    decide_eq_false_iff_not, decide_eq_true_eq] at h
  tauto

/-- Benign characters serialize to themselves. -/
theorem escChar_benign {c : Char} (h : benignChar c = true) : escChar c = [c] := by
  obtain ⟨h1, h2, h3, -⟩ := benignChar_spec h
  have hn : c ≠ '\n' := fun he => by subst he; exact absurd h1 (by decide)
  have hr : c ≠ '\r' := fun he => by subst he; exact absurd h1 (by decide)
  have ht : c ≠ '\t' := fun he => by subst he; exact absurd h1 (by decide)
  have hb : c ≠ '\x08' := fun he => by subst he; exact absurd h1 (by decide)
  have hf : c ≠ '\x0c' := fun he => by subst he; exact absurd h1 (by decide)
  have hlt : ¬ c.toNat < 0x20 := by omega
  simp [escChar, h2, h3, hn, hr, ht, hb, hf, hlt]

/-- A benign string's serialized body is the string itself. -/
theorem flatMap_escChar_benign {s : List Char} (h : benignStr s = true) :
    s.flatMap escChar = s := by
  induction s with
  | nil => rfl
  | cons c s' ih =>
    simp [benignStr] at h
    simp [List.flatMap_cons, escChar_benign h.1,
      ih (by simpa [benignStr] using h.2)]

/-- Serialization of a benign string literal. -/
theorem encodeStr_benign {s : List Char} (h : benignStr s = true) :
    encodeStr s = '"' :: s ++ ['"'] := by
  simp [encodeStr, flatMap_escChar_benign h]

/-- Parsing the body of a benign string literal consumes exactly the string
and its closing quote. -/
theorem parseJStr_benign {s : List Char} (h : benignStr s = true) (rest : List Char) :
    parseJStr (s ++ '"' :: rest) = some (s, rest) := by
  induction s with
  | nil =>
    show parseJStr ('"' :: rest) = some ([], rest)
    unfold parseJStr
    simp
  | cons c s' ih =>
    rw [benignStr, List.all_cons, Bool.and_eq_true] at h
    obtain ⟨h1, hq, hbs, -⟩ := benignChar_spec h.1
    have hge : ¬ c.toNat < 0x20 := by omega
    show parseJStr (c :: (s' ++ '"' :: rest)) = some (c :: s', rest)
    unfold parseJStr
    simp [hq, hbs, hge, ih h.2]

/-- The serialization of a benign value starts with a character that is not
whitespace, not a closer, and not a comma. -/
theorem strJ_head {v : Json} (h : benignJ v = true) :
    ∃ c cs', stringifyJ v = c :: cs' ∧ isJsonWs c = false ∧ isJsWs c = false ∧
      c ≠ ']' ∧ c ≠ '\x7d' ∧ c ≠ ',' := by
  cases v with
  | str s =>
    refine ⟨'"', s.flatMap escChar ++ ['"'], ?_, by decide, by decide, by decide, by decide, by decide⟩
    simp [stringifyJ, encodeStr]
  | num r => simp [benignJ] at h
  | bool b =>
    cases b
    · exact ⟨'f', ['a', 'l', 's', 'e'], by decide, by decide, by decide, by decide, by decide, by decide⟩
    · exact ⟨'t', ['r', 'u', 'e'], by decide, by decide, by decide, by decide, by decide, by decide⟩
  | null => exact ⟨'n', ['u', 'l', 'l'], by decide, by decide, by decide, by decide, by decide, by decide⟩
  | arr xs =>
    exact ⟨'[', stringifyE xs ++ [']'], by simp [stringifyJ], by decide, by decide, by decide,
      by decide, by decide⟩
  | obj ms =>
    exact ⟨'\x7b', stringifyM ms ++ ['\x7d'], by simp [stringifyJ], by decide, by decide, by decide,
      by decide, by decide⟩

/-- The serialization of a benign value is non-empty and does not end with a
comma. -/
theorem strJ_last {v : Json} (h : benignJ v = true) :
    stringifyJ v ≠ [] ∧ (stringifyJ v).getLast? ≠ some ',' := by
  cases v with
  | str s =>
    constructor
    · simp [stringifyJ, encodeStr]
    · have : stringifyJ (Json.str s) = ('"' :: s.flatMap escChar) ++ ['"'] := by
        simp [stringifyJ, encodeStr]
      rw [this, List.getLast?_concat]
      decide
  | num r => simp [benignJ] at h
  | bool b => cases b <;> exact ⟨by decide, by decide⟩
  | null => exact ⟨by decide, by decide⟩
  | arr xs =>
    constructor
    · simp [stringifyJ]
    · have : stringifyJ (Json.arr xs) = ('[' :: stringifyE xs) ++ [']'] := by
        simp [stringifyJ]
      rw [this, List.getLast?_concat]
      decide
  | obj ms =>
    constructor
    · simp [stringifyJ]
    · have : stringifyJ (Json.obj ms) = ('\x7b' :: stringifyM ms) ++ ['\x7d'] := by
        simp [stringifyJ]
      rw [this, List.getLast?_concat]
      decide

/-- The repair regex cannot fire right here: the next character exists and
is neither whitespace nor a closer. -/
def goodAfterComma : List Char → Bool
  | d :: _ => !isJsWs d && !(d = '\x7d') && !(d = ']')
  | [] => false

/-- Every comma in the list is immediately followed, within the list, by a
character that blocks the repair regex. -/
def commaImmune : List Char → Bool
  | [] => true
  | c :: rest => (if c = ',' then goodAfterComma rest else true) && commaImmune rest

/-- A good continuation defeats the closer-after-comma test. -/
theorem commaCloserAfter_of_good {rest : List Char} (h : goodAfterComma rest = true) :
    commaCloserAfter rest = false := by
  cases rest with
  | nil => simp [goodAfterComma] at h
  | cons d t =>
    simp only [goodAfterComma, Bool.and_eq_true, Bool.not_eq_true'] at h
    obtain ⟨⟨hws, h1⟩, h2⟩ := h
    simp [commaCloserAfter, List.dropWhile_cons, hws, h1, h2]

/-- `fixCommas` leaves a comma-immune prefix untouched. -/
theorem fixCommas_append_immune {a : List Char} (b : List Char)
    (ha : commaImmune a = true) : fixCommas (a ++ b) = a ++ fixCommas b := by
  induction a with
  | nil => rfl
  | cons c a' ih =>
    rw [commaImmune, Bool.and_eq_true] at ha
    obtain ⟨hc, ha'⟩ := ha
    by_cases hcc : c = ','
    · rw [if_pos hcc] at hc
      cases a' with
      | nil => simp [goodAfterComma] at hc
      | cons d t =>
        simp only [goodAfterComma, Bool.and_eq_true, Bool.not_eq_true'] at hc
        obtain ⟨⟨hws, h1⟩, h2⟩ := hc
        rw [List.cons_append, fixCommas]
        have hcca : commaCloserAfter (d :: (t ++ b)) = false := by
          simp [commaCloserAfter, List.dropWhile_cons, hws, h1, h2]
        have hih := ih ha'
        rw [List.cons_append] at hih
        simp [hcca, hih]
    · rw [List.cons_append, fixCommas]
      simp [hcc, ih ha']

/-- `fixCommas` is the identity on comma-immune text. -/
theorem fixCommas_of_immune {cs : List Char} (h : commaImmune cs = true) :
    fixCommas cs = cs := by
  have := fixCommas_append_immune [] h
  simpa [fixCommas] using this

/-- Comma-immunity is closed under concatenation. -/
theorem commaImmune_append {a b : List Char}
    (ha : commaImmune a = true) (hb : commaImmune b = true) :
    commaImmune (a ++ b) = true := by
  induction a with
  | nil => simpa using hb
  | cons c a' ih =>
    rw [commaImmune, Bool.and_eq_true] at ha
    obtain ⟨hc, ha'⟩ := ha
    rw [List.cons_append, commaImmune, Bool.and_eq_true]
    refine ⟨?_, ih ha'⟩
    by_cases hcc : c = ','
    · rw [if_pos hcc] at hc ⊢
      cases a' with
      | nil => simp [goodAfterComma] at hc
      | cons d t => simpa [goodAfterComma] using hc
    · rw [if_neg hcc]

/-- Text with no comma at all is comma-immune. -/
theorem commaImmune_of_noComma {cs : List Char} (h : ∀ c ∈ cs, c ≠ ',') :
    commaImmune cs = true := by
  induction cs with
  | nil => rfl
  | cons c rest ih =>
    rw [commaImmune, Bool.and_eq_true]
    exact ⟨by rw [if_neg (h c (by simp))], ih (fun x hx => h x (by simp [hx]))⟩

/-- A benign value's serialization starts like its own head character (also
through a non-empty element list). -/
theorem strE_head {x : Json} (xs : List Json) (h : benignJ x = true) :
    ∃ c t, stringifyE (x :: xs) = c :: t ∧ isJsonWs c = false ∧ isJsWs c = false ∧
      c ≠ ']' ∧ c ≠ '\x7d' ∧ c ≠ ',' := by
  obtain ⟨c, cs', hstr, hf⟩ := strJ_head h
  cases xs with
  | nil => exact ⟨c, cs', by simp [stringifyE, hstr], hf.1, hf.2.1, hf.2.2.1, hf.2.2.2.1, hf.2.2.2.2⟩
  | cons y r =>
    exact ⟨c, cs' ++ ',' :: stringifyE (y :: r), by simp [stringifyE, hstr], hf.1, hf.2.1,
      hf.2.2.1, hf.2.2.2.1, hf.2.2.2.2⟩

/-- A benign member list's serialization starts with a quote. -/
theorem strM_head {k : List Char} {v : Json} (ms : List (List Char × Json))
    (hk : benignStr k = true) :
    ∃ t, stringifyM ((k, v) :: ms) = '"' :: t := by
  cases ms with
  | nil => exact ⟨k ++ '"' :: ':' :: stringifyJ v, by simp [stringifyM, encodeStr_benign hk]⟩
  | cons m r =>
    exact ⟨k ++ '"' :: ':' :: (stringifyJ v ++ ',' :: stringifyM (m :: r)),
      by simp [stringifyM, encodeStr_benign hk]⟩

/-- A benign string literal's serialization is comma-immune (it contains no
comma at all). -/
theorem commaImmune_encodeStr {s : List Char} (h : benignStr s = true) :
    commaImmune (encodeStr s) = true := by
  rw [encodeStr_benign h]
  refine commaImmune_of_noComma ?_
  intro c hc
  simp [List.mem_append, List.mem_cons] at hc
  rcases hc with hc | hc | hc
  · subst hc; decide
  · exact (benignChar_spec (by
      rw [benignStr, List.all_eq_true] at h
      exact h c hc)).2.2.2.2.2.2.2.2
  · subst hc; decide

/-- Serializations of benign documents are comma-immune: every comma is a
separator immediately followed by the next element or member. -/
theorem commaImmune_str (n : ℕ) :
    (∀ v : Json, sizeOf v ≤ n → benignJ v = true → commaImmune (stringifyJ v) = true) ∧
    (∀ xs : List Json, sizeOf xs ≤ n → benignL xs = true → commaImmune (stringifyE xs) = true) ∧
    (∀ ms : List (List Char × Json), sizeOf ms ≤ n → benignM ms = true →
      commaImmune (stringifyM ms) = true) := by
  induction n using Nat.strong_induction_on with
  | _ n ih =>
    refine ⟨?_, ?_, ?_⟩
    · intro v hn hb
      cases v with
      | str s => exact commaImmune_encodeStr hb
      | num r => simp [benignJ] at hb
      | bool b => cases b <;> decide
      | null => decide
      | arr xs =>
        have hs : sizeOf xs < sizeOf (Json.arr xs) := by simp <;> omega
        have hxs := (ih (sizeOf xs) (by omega)).2.1 xs (le_refl _) (by simpa [benignJ] using hb)
        have : stringifyJ (Json.arr xs) = '[' :: (stringifyE xs ++ [']']) := by
          simp [stringifyJ]
        rw [this, commaImmune, Bool.and_eq_true]
        exact ⟨by rw [if_neg (by decide)], commaImmune_append hxs (by decide)⟩
      | obj ms =>
        have hs : sizeOf ms < sizeOf (Json.obj ms) := by simp <;> omega
        have hms := (ih (sizeOf ms) (by omega)).2.2 ms (le_refl _) (by simpa [benignJ] using hb)
        have : stringifyJ (Json.obj ms) = '\x7b' :: (stringifyM ms ++ ['\x7d']) := by
          simp [stringifyJ]
        rw [this, commaImmune, Bool.and_eq_true]
        exact ⟨by rw [if_neg (by decide)], commaImmune_append hms (by decide)⟩
    · intro xs hn hb
      cases xs with
      | nil => rfl
      | cons x r =>
        rw [benignL, Bool.and_eq_true] at hb
        have hsx : sizeOf x < sizeOf (x :: r) := by simp <;> omega
        have hx := (ih (sizeOf x) (by omega)).1 x (le_refl _) hb.1
        cases r with
        | nil => simpa [stringifyE] using hx
        | cons y r' =>
          have hsr : sizeOf (y :: r') < sizeOf (x :: y :: r') := by simp <;> omega
          have hr := (ih (sizeOf (y :: r')) (by omega)).2.1 (y :: r') (le_refl _) hb.2
          have hby : benignJ y = true := by
            have hb2 := hb.2
            rw [benignL, Bool.and_eq_true] at hb2
            exact hb2.1
          rw [stringifyE]
          refine commaImmune_append hx ?_
          rw [commaImmune, Bool.and_eq_true]
          refine ⟨?_, hr⟩
          rw [if_pos rfl]
          obtain ⟨c, t, hstr', -, hws2, hc1, hc2, -⟩ := strE_head r' hby
          rw [hstr']
          simp [goodAfterComma, hws2, hc1, hc2]
    · intro ms hn hb
      cases ms with
      | nil => rfl
      | cons m r =>
        obtain ⟨k, v⟩ := m
        rw [benignM, Bool.and_eq_true, Bool.and_eq_true] at hb
        obtain ⟨⟨hk, hv⟩, hr⟩ := hb
        have hsv : sizeOf v < sizeOf ((k, v) :: r) := by simp <;> omega
        have hvi := (ih (sizeOf v) (by omega)).1 v (le_refl _) hv
        cases r with
        | nil =>
          rw [stringifyM]
          refine commaImmune_append (commaImmune_encodeStr hk) ?_
          rw [commaImmune, Bool.and_eq_true]
          exact ⟨by rw [if_neg (by decide)], hvi⟩
        | cons m2 r' =>
          have hsr : sizeOf (m2 :: r') < sizeOf ((k, v) :: m2 :: r') := by simp <;> omega
          have hri := (ih (sizeOf (m2 :: r')) (by omega)).2.2 (m2 :: r') (le_refl _) hr
          obtain ⟨k2, v2⟩ := m2
          have hk2 : benignStr k2 = true := by
            rw [benignM, Bool.and_eq_true, Bool.and_eq_true] at hr
            exact hr.1.1
          rw [stringifyM]
          have hassoc :
              encodeStr k ++ ':' :: stringifyJ v ++ ',' :: stringifyM ((k2, v2) :: r')
                = encodeStr k ++ (':' :: (stringifyJ v ++ ',' :: stringifyM ((k2, v2) :: r'))) := by
            simp
          rw [hassoc]
          refine commaImmune_append (commaImmune_encodeStr hk) ?_
          rw [commaImmune, Bool.and_eq_true]
          refine ⟨by rw [if_neg (by decide)], ?_⟩
          refine commaImmune_append hvi ?_
          rw [commaImmune, Bool.and_eq_true]
          refine ⟨?_, hri⟩
          rw [if_pos rfl]
          obtain ⟨t, hstr'⟩ := strM_head r' hk2
          rw [hstr']
          simp only [goodAfterComma]
          decide

/-- One-step unfolding: a value parse at a quote runs the string parser. -/
theorem parseVal_quote (f : ℕ) (l : List Char) :
    parseVal (f + 1) ('"' :: l) = (parseJStr l).map (fun p => (Json.str p.1, p.2)) := by
  rw [parseVal, skipWs_quote]
  rfl

/-- One-step unfolding: a value parse at an opening brace. -/
theorem parseVal_lbrace (f : ℕ) (l : List Char) :
    parseVal (f + 1) ('\x7b' :: l) =
      (if (skipWs l).head? = some '\x7d' then some (Json.obj [], (skipWs l).tail)
       else parseMembers f (skipWs l) []) := by
  rw [parseVal, skipWs_lbrace]
  rfl

/-- One-step unfolding: a value parse at an opening bracket. -/
theorem parseVal_lbrack (f : ℕ) (l : List Char) :
    parseVal (f + 1) ('[' :: l) =
      (if (skipWs l).head? = some ']' then some (Json.arr [], (skipWs l).tail)
       else parseElems f (skipWs l) []) := by
  rw [parseVal, skipWs_lbrack]
  rfl

/-- One-step unfolding: the `true` literal. -/
theorem parseVal_true (f : ℕ) (l : List Char) :
    parseVal (f + 1) ('t' :: 'r' :: 'u' :: 'e' :: l) = some (Json.bool true, l) := rfl

/-- One-step unfolding: the `false` literal. -/
theorem parseVal_false (f : ℕ) (l : List Char) :
    parseVal (f + 1) ('f' :: 'a' :: 'l' :: 's' :: 'e' :: l) = some (Json.bool false, l) := rfl

/-- One-step unfolding: the `null` literal. -/
theorem parseVal_null (f : ℕ) (l : List Char) :
    parseVal (f + 1) ('n' :: 'u' :: 'l' :: 'l' :: l) = some (Json.null, l) := rfl

/-- One-step unfolding of `parseElems` after its element has been parsed. -/
theorem parseElems_step (f : ℕ) (cs r1 : List Char) (v : Json) (acc : List Json)
    (hv : parseVal f cs = some (v, r1)) :
    parseElems (f + 1) cs acc =
      (match skipWs r1 with
       | ',' :: r2 => parseElems f r2 (acc ++ [v])
       | ']' :: r2 => some (Json.arr (acc ++ [v]), r2)
       | _ => none) := by
  rw [parseElems, hv]

/-- One-step unfolding of `parseMembers` for a benign key followed by a
colon. -/
theorem parseMembers_key (f : ℕ) {k : List Char} (hk : benignStr k = true)
    (l : List Char) (acc : List (List Char × Json)) :
    parseMembers (f + 1) ('"' :: (k ++ '"' :: (':' :: l))) acc =
      (match parseVal f l with
       | none => none
       | some (v, r3) =>
         match skipWs r3 with
         | ',' :: r4 => parseMembers f r4 (acc ++ [(k, v)])
         | '\x7d' :: r4 => some (Json.obj (acc ++ [(k, v)]), r4)
         | _ => none) := by
  rw [parseMembers, skipWs_quote]
  show (match parseJStr (k ++ '"' :: (':' :: l)) with
    | none => none
    | some (k2, r1) =>
      match skipWs r1 with
      | ':' :: r2 =>
        match parseVal f r2 with
        | none => none
        | some (v, r3) =>
          match skipWs r3 with
          | ',' :: r4 => parseMembers f r4 (acc ++ [(k2, v)])
          | '\x7d' :: r4 => some (Json.obj (acc ++ [(k2, v)]), r4)
          | _ => none
      | _ => none) = _
  rw [parseJStr_benign hk]
  rfl

/-- One-step unfolding of `parseMembers` after key and value parsed. -/
theorem parseMembers_step (f : ℕ) {k : List Char} (hk : benignStr k = true)
    (l r3 : List Char) (v : Json) (acc : List (List Char × Json))
    (hv : parseVal f l = some (v, r3)) :
    parseMembers (f + 1) ('"' :: (k ++ '"' :: (':' :: l))) acc =
      (match skipWs r3 with
       | ',' :: r4 => parseMembers f r4 (acc ++ [(k, v)])
       | '\x7d' :: r4 => some (Json.obj (acc ++ [(k, v)]), r4)
       | _ => none) := by
  rw [parseMembers_key f hk l acc, hv]

/-- Round trip: parsing the serialization of a benign value (with anything
appended) returns exactly the value and the appended remainder; similarly
for serialized element and member lists up to their closing delimiter. -/
theorem parseRT (n : ℕ) :
    (∀ v : Json, sizeOf v ≤ n → benignJ v = true → ∀ f, jfuel v ≤ f → ∀ rest,
      parseVal f (stringifyJ v ++ rest) = some (v, rest)) ∧
    (∀ xs : List Json, sizeOf xs ≤ n → xs ≠ [] → benignL xs = true → ∀ f, lfuel xs ≤ f →
      ∀ r acc, parseElems f (stringifyE xs ++ ']' :: r) acc = some (Json.arr (acc ++ xs), r)) ∧
    (∀ ms : List (List Char × Json), sizeOf ms ≤ n → ms ≠ [] → benignM ms = true →
      ∀ f, mfuel ms ≤ f →
      ∀ r acc, parseMembers f (stringifyM ms ++ '\x7d' :: r) acc = some (Json.obj (acc ++ ms), r)) := by
  induction n using Nat.strong_induction_on with
  | _ n ih =>
    refine ⟨?_, ?_, ?_⟩
    · intro v hn hb f hf rest
      cases f with
      | zero =>
        exfalso
        cases v <;> simp [jfuel] at hf
      | succ f' =>
        cases v with
        | str s =>
          have hb' : benignStr s = true := by simpa [benignJ] using hb
          have hser : stringifyJ (Json.str s) ++ rest = '"' :: (s ++ '"' :: rest) := by
            simp [stringifyJ, encodeStr_benign hb']
          rw [hser, parseVal_quote, parseJStr_benign hb' rest]
          rfl
        | num r => simp [benignJ] at hb
        | bool b =>
          cases b
          · exact parseVal_false f' rest
          · exact parseVal_true f' rest
        | null => exact parseVal_null f' rest
        | arr xs =>
          have hbl : benignL xs = true := by simpa [benignJ] using hb
          cases xs with
          | nil =>
            show parseVal (f' + 1) ('[' :: ']' :: rest) = _
            rw [parseVal_lbrack, skipWs_rbrack]
            rfl
          | cons x r =>
            have hser : stringifyJ (Json.arr (x :: r)) ++ rest
                = '[' :: (stringifyE (x :: r) ++ ']' :: rest) := by
              simp [stringifyJ]
            obtain ⟨c, t, hstr', hws1, -, hc1, -, -⟩ := strE_head r (by
              rw [benignL, Bool.and_eq_true] at hbl; exact hbl.1)
            have hsw : skipWs (stringifyE (x :: r) ++ ']' :: rest)
                = stringifyE (x :: r) ++ ']' :: rest := by
              rw [hstr', List.cons_append]
              exact skipWs_cons_neg hws1 _
            have hhead : (stringifyE (x :: r) ++ ']' :: rest).head? = some c := by
              rw [hstr']; simp
            have hfl : lfuel (x :: r) ≤ f' := by
              simp only [jfuel] at hf; omega
            have hsz : sizeOf (x :: r) < n := by
              have : sizeOf (x :: r) < sizeOf (Json.arr (x :: r)) := by simp <;> omega
              omega
            have hel := (ih (sizeOf (x :: r)) hsz).2.1 (x :: r) (le_refl _) (by simp)
              hbl f' hfl rest []
            rw [hser, parseVal_lbrack, hsw, hhead, if_neg (by simp [hc1]), hel]
            simp
        | obj ms =>
          have hbm : benignM ms = true := by simpa [benignJ] using hb
          cases ms with
          | nil =>
            show parseVal (f' + 1) ('\x7b' :: '\x7d' :: rest) = _
            rw [parseVal_lbrace, skipWs_rbrace]
            rfl
          | cons m r =>
            obtain ⟨k, v0⟩ := m
            have hser : stringifyJ (Json.obj ((k, v0) :: r)) ++ rest
                = '\x7b' :: (stringifyM ((k, v0) :: r) ++ '\x7d' :: rest) := by
              simp [stringifyJ]
            have hk : benignStr k = true := by
              rw [benignM, Bool.and_eq_true, Bool.and_eq_true] at hbm
              exact hbm.1.1
            obtain ⟨t, hstr'⟩ := strM_head r hk
            have hsw : skipWs (stringifyM ((k, v0) :: r) ++ '\x7d' :: rest)
                = stringifyM ((k, v0) :: r) ++ '\x7d' :: rest := by
              rw [hstr', List.cons_append]
              exact skipWs_quote _
            have hhead : (stringifyM ((k, v0) :: r) ++ '\x7d' :: rest).head? = some '"' := by
              rw [hstr']; simp
            have hfm : mfuel ((k, v0) :: r) ≤ f' := by
              simp only [jfuel] at hf; omega
            have hsz : sizeOf ((k, v0) :: r) < n := by
              have : sizeOf ((k, v0) :: r) < sizeOf (Json.obj ((k, v0) :: r)) := by simp <;> omega
              omega
            have hmem := (ih (sizeOf ((k, v0) :: r)) hsz).2.2 ((k, v0) :: r) (le_refl _)
              (by simp) hbm f' hfm rest []
            rw [hser, parseVal_lbrace, hsw, hhead, if_neg (by decide), hmem]
            simp
    · intro xs hn hne hb f hf r acc
      cases xs with
      | nil => exact absurd rfl hne
      | cons x rxs =>
        rw [benignL, Bool.and_eq_true] at hb
        cases f with
        | zero => simp [lfuel] at hf
        | succ f' =>
          have hszx : sizeOf x < n := by
            have : sizeOf x < sizeOf (x :: rxs) := by simp <;> omega
            omega
          have hvx := (ih (sizeOf x) hszx).1 x (le_refl _) hb.1
          cases rxs with
          | nil =>
            have hser : stringifyE [x] ++ ']' :: r = stringifyJ x ++ ']' :: r := by
              simp [stringifyE]
            have hfx : jfuel x ≤ f' := by simp [lfuel] at hf ⊢; omega
            rw [hser, parseElems_step f' _ _ x acc (hvx f' hfx (']' :: r)), skipWs_rbrack]
            rfl
          | cons y r2 =>
            have hser : stringifyE (x :: y :: r2) ++ ']' :: r
                = stringifyJ x ++ ',' :: (stringifyE (y :: r2) ++ ']' :: r) := by
              simp [stringifyE]
            have hfx : jfuel x ≤ f' := by simp [lfuel] at hf ⊢; omega
            have hfr : lfuel (y :: r2) ≤ f' := by simp [lfuel] at hf ⊢; omega
            have hszr : sizeOf (y :: r2) < n := by
              have : sizeOf (y :: r2) < sizeOf (x :: y :: r2) := by simp <;> omega
              omega
            have hrec := (ih (sizeOf (y :: r2)) hszr).2.1 (y :: r2) (le_refl _) (by simp)
              hb.2 f' hfr r (acc ++ [x])
            rw [hser, parseElems_step f' _ _ x acc (hvx f' hfx _), skipWs_comma]
            show parseElems f' (stringifyE (y :: r2) ++ ']' :: r) (acc ++ [x]) = _
            rw [hrec]
            simp
    · intro ms hn hne hb f hf r acc
      cases ms with
      | nil => exact absurd rfl hne
      | cons m rms =>
        obtain ⟨k, v0⟩ := m
        rw [benignM, Bool.and_eq_true, Bool.and_eq_true] at hb
        obtain ⟨⟨hk, hv⟩, hrm⟩ := hb
        cases f with
        | zero => simp [mfuel] at hf
        | succ f' =>
          have hszv : sizeOf v0 < n := by
            have : sizeOf v0 < sizeOf ((k, v0) :: rms) := by simp <;> omega
            omega
          have hvv := (ih (sizeOf v0) hszv).1 v0 (le_refl _) hv
          have hfx : jfuel v0 ≤ f' := by simp [mfuel] at hf ⊢; omega
          cases rms with
          | nil =>
            have hser : stringifyM [(k, v0)] ++ '\x7d' :: r
                = '"' :: (k ++ '"' :: (':' :: (stringifyJ v0 ++ '\x7d' :: r))) := by
              simp [stringifyM, encodeStr_benign hk]
            rw [hser, parseMembers_step f' hk _ _ v0 acc (hvv f' hfx _), skipWs_rbrace]
            rfl
          | cons m2 r2 =>
            obtain ⟨k2, v2⟩ := m2
            have hser : stringifyM ((k, v0) :: (k2, v2) :: r2) ++ '\x7d' :: r
                = '"' :: (k ++ '"' :: (':' :: (stringifyJ v0
                    ++ ',' :: (stringifyM ((k2, v2) :: r2) ++ '\x7d' :: r)))) := by
              simp [stringifyM, encodeStr_benign hk]
            have hfr : mfuel ((k2, v2) :: r2) ≤ f' := by simp [mfuel] at hf ⊢; omega
            have hszr : sizeOf ((k2, v2) :: r2) < n := by
              have : sizeOf ((k2, v2) :: r2) < sizeOf ((k, v0) :: (k2, v2) :: r2) := by
                simp <;> omega
              omega
            have hrec := (ih (sizeOf ((k2, v2) :: r2)) hszr).2.2 ((k2, v2) :: r2) (le_refl _)
              (by simp) hrm f' hfr r (acc ++ [(k, v0)])
            rw [hser, parseMembers_step f' hk _ _ v0 acc (hvv f' hfx _), skipWs_comma]
            show parseMembers f' (stringifyM ((k2, v2) :: r2) ++ '\x7d' :: r) (acc ++ [(k, v0)]) = _
            rw [hrec]
            simp

/-- A serialized member list followed by a trailing comma before the
closing brace fails to parse: after the last member the parser expects a new
member and finds the closing brace. -/
theorem parseMembers_trailing (ms : List (List Char × Json)) (hne : ms ≠ [])
    (hb : benignM ms = true) :
    ∀ f, mfuel ms + 1 ≤ f → ∀ r acc,
      parseMembers f (stringifyM ms ++ ',' :: '\x7d' :: r) acc = none := by
  induction ms with
  | nil => exact absurd rfl hne
  | cons m rms ih =>
    obtain ⟨k, v0⟩ := m
    rw [benignM, Bool.and_eq_true, Bool.and_eq_true] at hb
    obtain ⟨⟨hk, hv⟩, hrm⟩ := hb
    intro f hf r acc
    cases f with
    | zero => omega
    | succ f' =>
      have hvv := (parseRT (sizeOf v0)).1 v0 (le_refl _) hv
      have hfx : jfuel v0 ≤ f' := by simp [mfuel] at hf ⊢; omega
      cases rms with
      | nil =>
        have hser : stringifyM [(k, v0)] ++ ',' :: '\x7d' :: r
            = '"' :: (k ++ '"' :: (':' :: (stringifyJ v0 ++ ',' :: '\x7d' :: r))) := by
          simp [stringifyM, encodeStr_benign hk]
        rw [hser, parseMembers_step f' hk _ _ v0 acc (hvv f' hfx _), skipWs_comma]
        show parseMembers f' ('\x7d' :: r) (acc ++ [(k, v0)]) = none
        cases f' with
        | zero => rfl
        | succ g =>
          rw [parseMembers, skipWs_rbrace]
          rfl
      | cons m2 r2 =>
        have hne2 : (m2 :: r2) ≠ [] := by simp
        have hser : stringifyM ((k, v0) :: m2 :: r2) ++ ',' :: '\x7d' :: r
            = '"' :: (k ++ '"' :: (':' :: (stringifyJ v0
                ++ ',' :: (stringifyM (m2 :: r2) ++ ',' :: '\x7d' :: r)))) := by
          cases m2 with
          | mk k2 v2 => simp [stringifyM, encodeStr_benign hk]
        have hfr : mfuel (m2 :: r2) + 1 ≤ f' := by
          cases m2 with
          | mk k2 v2 => simp [mfuel] at hf ⊢; omega
        rw [hser, parseMembers_step f' hk _ _ v0 acc (hvv f' hfx _), skipWs_comma]
        show parseMembers f' (stringifyM (m2 :: r2) ++ ',' :: '\x7d' :: r) (acc ++ [(k, v0)]) = none
        exact ih hne2 hrm f' hfr r _

/-- The defined fuel measures are bounded by serialization length. -/
theorem fuelBound (n : ℕ) :
    (∀ v : Json, sizeOf v ≤ n → benignJ v = true → jfuel v ≤ (stringifyJ v).length) ∧
    (∀ xs : List Json, sizeOf xs ≤ n → xs ≠ [] → benignL xs = true →
      lfuel xs ≤ (stringifyE xs).length + 1) ∧
    (∀ ms : List (List Char × Json), sizeOf ms ≤ n → ms ≠ [] → benignM ms = true →
      mfuel ms ≤ (stringifyM ms).length + 1) := by
  induction n using Nat.strong_induction_on with
  | _ n ih =>
    refine ⟨?_, ?_, ?_⟩
    · intro v hn hb
      cases v with
      | str s => simp [jfuel, stringifyJ, encodeStr]
      | num r => simp [benignJ] at hb
      | bool b => cases b <;> simp [jfuel, stringifyJ]
      | null => simp [jfuel, stringifyJ]
      | arr xs =>
        cases xs with
        | nil => simp [jfuel, lfuel, stringifyJ, stringifyE]
        | cons x r =>
          have hsz : sizeOf (x :: r) < n := by
            have : sizeOf (x :: r) < sizeOf (Json.arr (x :: r)) := by simp <;> omega
            omega
          have hl := (ih (sizeOf (x :: r)) hsz).2.1 (x :: r) (le_refl _) (by simp)
            (by simpa [benignJ] using hb)
          simp only [jfuel, stringifyJ]
          simp at hl ⊢
          omega
      | obj ms =>
        cases ms with
        | nil => simp [jfuel, mfuel, stringifyJ, stringifyM]
        | cons m r =>
          have hsz : sizeOf (m :: r) < n := by
            have : sizeOf (m :: r) < sizeOf (Json.obj (m :: r)) := by simp <;> omega
            omega
          have hl := (ih (sizeOf (m :: r)) hsz).2.2 (m :: r) (le_refl _) (by simp)
            (by simpa [benignJ] using hb)
          simp only [jfuel, stringifyJ]
          simp at hl ⊢
          omega
    · intro xs hn hne hb
      cases xs with
      | nil => exact absurd rfl hne
      | cons x r =>
        rw [benignL, Bool.and_eq_true] at hb
        have hszx : sizeOf x < n := by
          have : sizeOf x < sizeOf (x :: r) := by simp <;> omega
          omega
        have hx := (ih (sizeOf x) hszx).1 x (le_refl _) hb.1
        cases r with
        | nil => simp [lfuel, stringifyE]; omega
        | cons y r2 =>
          have hszr : sizeOf (y :: r2) < n := by
            have : sizeOf (y :: r2) < sizeOf (x :: y :: r2) := by simp <;> omega
            omega
          have hr := (ih (sizeOf (y :: r2)) hszr).2.1 (y :: r2) (le_refl _) (by simp) hb.2
          have huf : lfuel (y :: r2) = jfuel y + lfuel r2 + 1 := rfl
          simp only [lfuel, stringifyE, List.length_append, List.length_cons]
          omega
    · intro ms hn hne hb
      cases ms with
      | nil => exact absurd rfl hne
      | cons m r =>
        obtain ⟨k, v0⟩ := m
        rw [benignM, Bool.and_eq_true, Bool.and_eq_true] at hb
        obtain ⟨⟨hk, hv⟩, hrm⟩ := hb
        have hszv : sizeOf v0 < n := by
          have : sizeOf v0 < sizeOf ((k, v0) :: r) := by simp <;> omega
          omega
        have hvb := (ih (sizeOf v0) hszv).1 v0 (le_refl _) hv
        cases r with
        | nil => simp [mfuel, stringifyM]; omega
        | cons m2 r2 =>
          have hszr : sizeOf (m2 :: r2) < n := by
            have : sizeOf (m2 :: r2) < sizeOf ((k, v0) :: m2 :: r2) := by simp <;> omega
            omega
          obtain ⟨k2, v2⟩ := m2
          have hr := (ih (sizeOf ((k2, v2) :: r2)) hszr).2.2 ((k2, v2) :: r2) (le_refl _)
            (by simp) hrm
          have huf : mfuel ((k2, v2) :: r2) = jfuel v2 + mfuel r2 + 1 := rfl
          simp only [mfuel, stringifyM, List.length_append, List.length_cons]
          omega

/-- `JSON.parse` succeeds on the serialization of a benign document. -/
theorem jsonParse_stringify {D : Json} (hb : benignJ D = true) :
    jsonParse (stringifyJ D) = some D := by
  unfold jsonParse
  have hfb := (fuelBound (sizeOf D)).1 D (le_refl _) hb
  have h1 := (parseRT (sizeOf D)).1 D (le_refl _) hb ((stringifyJ D).length + 1) (by omega) []
  rw [List.append_nil] at h1
  rw [h1]
  rfl

/-- A serialized benign object with a comma inserted before its final
closing brace. -/
def trailedObj (ms : List (List Char × Json)) : List Char :=
  '\x7b' :: (stringifyM ms ++ [',', '\x7d'])

/-- `JSON.parse` rejects the trailing-comma variant. -/
theorem jsonParse_trailedObj {ms : List (List Char × Json)} (hb : benignM ms = true) :
    jsonParse (trailedObj ms) = none := by
  cases ms with
  | nil => rfl
  | cons m r =>
    obtain ⟨k, v0⟩ := m
    have hk : benignStr k = true := by
      rw [benignM, Bool.and_eq_true, Bool.and_eq_true] at hb
      exact hb.1.1
    obtain ⟨t, hstr'⟩ := strM_head r hk
    unfold jsonParse trailedObj
    have hone : stringifyM ((k, v0) :: r) ++ [',', '\x7d']
        = stringifyM ((k, v0) :: r) ++ ',' :: '\x7d' :: [] := by simp
    rw [parseVal_lbrace]
    have hsw : skipWs (stringifyM ((k, v0) :: r) ++ [',', '\x7d'])
        = stringifyM ((k, v0) :: r) ++ [',', '\x7d'] := by
      rw [hstr', List.cons_append]
      exact skipWs_quote _
    have hhead : (stringifyM ((k, v0) :: r) ++ [',', '\x7d']).head? = some '"' := by
      rw [hstr']; simp
    rw [hsw, hhead, if_neg (by decide)]
    have hfm := (fuelBound (sizeOf ((k, v0) :: r))).2.2 ((k, v0) :: r) (le_refl _) (by simp) hb
    have htr := parseMembers_trailing ((k, v0) :: r) (by simp) hb
      ('\x7b' :: (stringifyM ((k, v0) :: r) ++ [',', '\x7d'])).length
      (by simp; omega) [] []
    rw [hone, htr]

/-- The comma repair turns the trailing-comma variant back into the exact
serialization. -/
theorem fixCommas_trailedObj {ms : List (List Char × Json)} (hb : benignM ms = true) :
    fixCommas (trailedObj ms) = stringifyJ (Json.obj ms) := by
  have himm : commaImmune ('\x7b' :: stringifyM ms) = true := by
    rw [commaImmune, Bool.and_eq_true]
    exact ⟨by rw [if_neg (by decide)],
      (commaImmune_str (sizeOf ms)).2.2 ms (le_refl _) hb⟩
  have hsplit : trailedObj ms = ('\x7b' :: stringifyM ms) ++ [',', '\x7d'] := by
    simp [trailedObj]
  rw [hsplit, fixCommas_append_immune _ himm]
  have : fixCommas [',', '\x7d'] = ['\x7d'] := rfl
  rw [this]
  simp [stringifyJ]

/-- `indexOf` misses characters absent from the list. -/
theorem idxOfC_eq_none {l : List Char} {c : Char} (h : ∀ x ∈ l, x ≠ c) :
    idxOfC l c = none := by
  induction l with
  | nil => rfl
  | cons x rest ih =>
    rw [idxOfC, if_neg (h x (by simp)), ih (fun y hy => h y (by simp [hy]))]
    rfl

/-- `indexOf` skips a prefix that misses the character. -/
theorem idxOfC_append_left {a : List Char} {c : Char} (h : ∀ x ∈ a, x ≠ c) (b : List Char) :
    idxOfC (a ++ b) c = (idxOfC b c).map (· + a.length) := by
  induction a with
  | nil => simp
  | cons x rest ih =>
    rw [List.cons_append, idxOfC, if_neg (h x (by simp)),
      ih (fun y hy => h y (by simp [hy]))]
    cases idxOfC b c <;> simp <;> omega

/-- `indexOf` hits the head. -/
theorem idxOfC_cons_self (c : Char) (l : List Char) : idxOfC (c :: l) c = some 0 := by
  simp [idxOfC]

/-- Step 3 finds exactly the embedded object when the surrounding prose
contains no braces or brackets. -/
theorem extractSpan_wrap {a b mid : List Char}
    (ha : ∀ c ∈ a, c ≠ '\x7b' ∧ c ≠ '\x7d' ∧ c ≠ '[' ∧ c ≠ ']')
    (hb : ∀ c ∈ b, c ≠ '\x7b' ∧ c ≠ '\x7d' ∧ c ≠ '[' ∧ c ≠ ']') :
    extractSpan (a ++ ('\x7b' :: mid ++ ['\x7d']) ++ b) = '\x7b' :: mid ++ ['\x7d'] := by
  set core : List Char := '\x7b' :: mid ++ ['\x7d'] with hcoredef
  have hclen : core.length = mid.length + 2 := by simp [hcoredef]
  have hfb : idxOfC (a ++ core ++ b) '\x7b' = some a.length := by
    rw [List.append_assoc, idxOfC_append_left (fun x hx => (ha x hx).1)]
    rw [hcoredef]
    simp [idxOfC_cons_self]
  have hlb : lastIdxOfC (a ++ core ++ b) '\x7d' = some (a.length + core.length - 1) := by
    have hrev : (a ++ core ++ b).reverse
        = b.reverse ++ ('\x7d' :: (mid.reverse ++ '\x7b' :: a.reverse)) := by
      simp [hcoredef]
    have hidx : idxOfC ((a ++ core ++ b).reverse) '\x7d' = some b.length := by
      rw [hrev,
        idxOfC_append_left (fun x hx => (hb x (List.mem_reverse.mp hx)).2.1),
        idxOfC_cons_self]
      simp
    unfold lastIdxOfC
    rw [hidx]
    simp only [Option.map_some', Option.some.injEq, List.length_append]
    omega
  have hfk : idxOfC (a ++ core ++ b) '[' = (idxOfC (mid ++ ('\x7d' :: b)) '[').map
      (fun i => i + 1 + a.length) := by
    rw [List.append_assoc, idxOfC_append_left (fun x hx => (ha x hx).2.2.1)]
    have : core ++ b = '\x7b' :: (mid ++ ('\x7d' :: b)) := by simp [hcoredef]
    rw [this, idxOfC, if_neg (by decide)]
    cases idxOfC (mid ++ ('\x7d' :: b)) '[' <;> simp
  have hdrop : (a ++ core ++ b).drop a.length = core ++ b := by
    rw [List.append_assoc]
    exact List.drop_left a (core ++ b)
  have harith : a.length + core.length - 1 + 1 - a.length = core.length := by omega
  simp only [extractSpan]
  rw [hfb, hlb, hfk]
  cases hik : idxOfC (mid ++ ('\x7d' :: b)) '[' with
  | none =>
    simp only [Option.map_none']
    show (if a.length < a.length + core.length - 1 then
        ((a ++ core ++ b).drop a.length).take (a.length + core.length - 1 + 1 - a.length)
      else a ++ core ++ b) = core
    rw [if_pos (by omega : a.length < a.length + core.length - 1), hdrop, harith]
    exact List.take_left core b
  | some j =>
    simp only [Option.map_some']
    show (match (if a.length < j + 1 + a.length
        then ((some a.length, some (a.length + core.length - 1)) :
          Option Nat × Option Nat)
        else (some (j + 1 + a.length), lastIdxOfC (a ++ core ++ b) ']')) with
      | (some s, some e) =>
        if s < e then ((a ++ core ++ b).drop s).take (e + 1 - s) else a ++ core ++ b
      | _ => a ++ core ++ b) = core
    rw [if_pos (by omega : a.length < j + 1 + a.length)]
    show (if a.length < a.length + core.length - 1 then
        ((a ++ core ++ b).drop a.length).take (a.length + core.length - 1 + 1 - a.length)
      else a ++ core ++ b) = core
    rw [if_pos (by omega : a.length < a.length + core.length - 1), hdrop, harith]
    exact List.take_left core b

/-! ## C4 positive side: trimming, fences and backtick-freeness -/

/-- Membership survives `dropWhile`. -/
theorem mem_dropWhile {p : Char → Bool} {c : Char} :
    ∀ {cs : List Char}, c ∈ List.dropWhile p cs → c ∈ cs := by
  intro cs
  induction cs with
  | nil => intro h; simpa using h
  | cons x r ih =>
    intro h
    rw [List.dropWhile_cons] at h
    by_cases hpx : p x = true
    · rw [if_pos hpx] at h
      exact List.mem_cons_of_mem x (ih h)
    · rw [if_neg hpx] at h
      exact h

/-- Characters of the left-trimmed text come from the original text. -/
theorem mem_trimLeft {c : Char} {cs : List Char} (h : c ∈ trimLeft cs) : c ∈ cs :=
  mem_dropWhile h

/-- Characters of the right-trimmed text come from the original text. -/
theorem mem_trimRight {c : Char} {cs : List Char} (h : c ∈ trimRight cs) : c ∈ cs := by
  unfold trimRight at h
  rw [List.mem_reverse] at h
  exact List.mem_reverse.mp (mem_dropWhile h)

/-- `dropWhile` stops no later than a known non-matching character. -/
theorem dropWhile_append_head {p : Char → Bool} (a : List Char) {c : Char} (r : List Char)
    (hc : p c = false) :
    List.dropWhile p (a ++ c :: r) = List.dropWhile p a ++ c :: r := by
  induction a with
  | nil => simp [List.dropWhile_cons, hc]
  | cons x a' ih =>
    rw [List.cons_append, List.dropWhile_cons, List.dropWhile_cons]
    cases hpx : p x <;> simp [hpx, ih]

/-- Left trim of prose followed by non-whitespace content. -/
theorem trimLeft_append (pre : List Char) {c : Char} (r : List Char)
    (hc : isJsWs c = false) :
    trimLeft (pre ++ c :: r) = trimLeft pre ++ c :: r :=
  dropWhile_append_head pre r hc

/-- Right trim of content ending in non-whitespace followed by prose. -/
theorem trimRight_append {Y : List Char} (post : List Char) {d : Char} {s : List Char}
    (hY : Y.reverse = d :: s) (hd : isJsWs d = false) :
    trimRight (Y ++ post) = Y ++ trimRight post := by
  unfold trimRight
  rw [List.reverse_append, hY, dropWhile_append_head _ _ hd, List.reverse_append, ← hY]
  simp

/-- `trim` around a block with non-whitespace first and last characters only
trims the surrounding prose. -/
theorem jsTrim_wrap {pre post m : List Char} {c d : Char}
    (hc : isJsWs c = false) (hd : isJsWs d = false) :
    jsTrim (pre ++ (c :: (m ++ [d])) ++ post)
      = trimLeft pre ++ (c :: (m ++ [d])) ++ trimRight post := by
  unfold jsTrim
  have h1 : trimLeft (pre ++ (c :: (m ++ [d])) ++ post)
      = trimLeft pre ++ (c :: (m ++ [d])) ++ post := by
    have hsh : pre ++ (c :: (m ++ [d])) ++ post = pre ++ c :: ((m ++ [d]) ++ post) := by
      simp
    rw [hsh, trimLeft_append pre _ hc]
    simp
  rw [h1]
  have hY : (trimLeft pre ++ (c :: (m ++ [d]))).reverse
      = d :: (m.reverse ++ (c :: (trimLeft pre).reverse)) := by simp
  exact trimRight_append post hY hd

/-- `trim` of a newline-wrapped object serialization. -/
theorem jsTrim_inner (q : List Char) :
    jsTrim (['\n'] ++ ('\x7b' :: (q ++ ['\x7d'])) ++ ['\n']) = '\x7b' :: (q ++ ['\x7d']) := by
  rw [jsTrim_wrap (by decide) (by decide)]
  have h1 : trimLeft ['\n'] = [] := rfl
  have h2 : trimRight ['\n'] = [] := rfl
  rw [h1, h2]
  simp

/-- Serialized benign string literals contain no backtick. -/
theorem noBt_encodeStr {s : List Char} (h : benignStr s = true) :
    ∀ c ∈ encodeStr s, c ≠ Char.ofNat 96 := by
  rw [encodeStr_benign h]
  intro c hc
  simp only [List.mem_cons, List.mem_append, List.not_mem_nil, or_false] at hc
  rcases hc with (rfl | hc) | rfl
  · decide
  · exact (benignChar_spec (by
      rw [benignStr, List.all_eq_true] at h
      exact h c hc)).2.2.2.2.2.2.2.1
  · decide

/-- Serializations of benign documents contain no backtick. -/
theorem noBt_str (n : ℕ) :
    (∀ v : Json, sizeOf v ≤ n → benignJ v = true →
      ∀ c ∈ stringifyJ v, c ≠ Char.ofNat 96) ∧
    (∀ xs : List Json, sizeOf xs ≤ n → benignL xs = true →
      ∀ c ∈ stringifyE xs, c ≠ Char.ofNat 96) ∧
    (∀ ms : List (List Char × Json), sizeOf ms ≤ n → benignM ms = true →
      ∀ c ∈ stringifyM ms, c ≠ Char.ofNat 96) := by
  induction n using Nat.strong_induction_on with
  | _ n ih =>
    refine ⟨?_, ?_, ?_⟩
    · intro v hn hb c hc
      cases v with
      | str s => exact noBt_encodeStr hb c hc
      | num r => simp [benignJ] at hb
      | bool b =>
        cases b
        · have he : stringifyJ (Json.bool false) = ['f', 'a', 'l', 's', 'e'] := rfl
          rw [he] at hc
          simp only [List.mem_cons, List.not_mem_nil, or_false] at hc
          rcases hc with rfl | rfl | rfl | rfl | rfl <;> decide
        · have he : stringifyJ (Json.bool true) = ['t', 'r', 'u', 'e'] := rfl
          rw [he] at hc
          simp only [List.mem_cons, List.not_mem_nil, or_false] at hc
          rcases hc with rfl | rfl | rfl | rfl <;> decide
      | null =>
        have he : stringifyJ Json.null = ['n', 'u', 'l', 'l'] := rfl
        rw [he] at hc
        simp only [List.mem_cons, List.not_mem_nil, or_false] at hc
        rcases hc with rfl | rfl | rfl | rfl <;> decide
      | arr xs =>
        have hs : sizeOf xs < sizeOf (Json.arr xs) := by simp <;> omega
        have hxs := (ih (sizeOf xs) (by omega)).2.1 xs (le_refl _) (by simpa [benignJ] using hb)
        have he : stringifyJ (Json.arr xs) = '[' :: (stringifyE xs ++ [']']) := by
          simp [stringifyJ]
        rw [he] at hc
        simp only [List.mem_cons, List.mem_append, List.not_mem_nil, or_false] at hc
        rcases hc with rfl | hc | rfl
        · decide
        · exact hxs c hc
        · decide
      | obj ms =>
        have hs : sizeOf ms < sizeOf (Json.obj ms) := by simp <;> omega
        have hms := (ih (sizeOf ms) (by omega)).2.2 ms (le_refl _) (by simpa [benignJ] using hb)
        have he : stringifyJ (Json.obj ms) = '\x7b' :: (stringifyM ms ++ ['\x7d']) := by
          simp [stringifyJ]
        rw [he] at hc
        simp only [List.mem_cons, List.mem_append, List.not_mem_nil, or_false] at hc
        rcases hc with rfl | hc | rfl
        · decide
        · exact hms c hc
        · decide
    · intro xs hn hb c hc
      cases xs with
      | nil => simp [stringifyE] at hc
      | cons x r =>
        rw [benignL, Bool.and_eq_true] at hb
        have hsx : sizeOf x < sizeOf (x :: r) := by simp <;> omega
        have hx := (ih (sizeOf x) (by omega)).1 x (le_refl _) hb.1
        cases r with
        | nil => exact hx c (by simpa [stringifyE] using hc)
        | cons y r' =>
          have hsr : sizeOf (y :: r') < sizeOf (x :: y :: r') := by simp <;> omega
          have hr := (ih (sizeOf (y :: r')) (by omega)).2.1 (y :: r') (le_refl _) hb.2
          simp only [stringifyE] at hc
          simp only [List.mem_append, List.mem_cons] at hc
          rcases hc with hc | rfl | hc
          · exact hx c hc
          · decide
          · exact hr c hc
    · intro ms hn hb c hc
      cases ms with
      | nil => simp [stringifyM] at hc
      | cons m r =>
        obtain ⟨k, v⟩ := m
        rw [benignM, Bool.and_eq_true, Bool.and_eq_true] at hb
        obtain ⟨⟨hk, hv⟩, hr⟩ := hb
        have hsv : sizeOf v < sizeOf ((k, v) :: r) := by simp <;> omega
        have hvi := (ih (sizeOf v) (by omega)).1 v (le_refl _) hv
        cases r with
        | nil =>
          simp only [stringifyM] at hc
          simp only [List.mem_append, List.mem_cons] at hc
          rcases hc with hc | rfl | hc
          · exact noBt_encodeStr hk c hc
          · decide
          · exact hvi c hc
        | cons m2 r' =>
          have hsr : sizeOf (m2 :: r') < sizeOf ((k, v) :: m2 :: r') := by simp <;> omega
          have hri := (ih (sizeOf (m2 :: r')) (by omega)).2.2 (m2 :: r') (le_refl _) hr
          simp only [stringifyM] at hc
          simp only [List.mem_append, List.mem_cons, List.not_mem_nil, or_false] at hc
          rcases hc with (hc | rfl | hc) | rfl | hc
          · exact noBt_encodeStr hk c hc
          · decide
          · exact hvi c hc
          · decide
          · exact hri c hc

/-- One step of the fence scan past a non-backtick character. -/
theorem splitFence_cons_ne {x : Char} (hx : x ≠ Char.ofNat 96) (y z : Char) (r : List Char) :
    splitFence (x :: y :: z :: r)
      = (splitFence (y :: z :: r)).map (fun p => (x :: p.1, p.2)) := by
  show (if x = Char.ofNat 96 ∧ y = Char.ofNat 96 ∧ z = Char.ofNat 96 then
      some (([] : List Char), r)
    else (splitFence (y :: z :: r)).map (fun p => (x :: p.1, p.2)))
    = (splitFence (y :: z :: r)).map (fun p => (x :: p.1, p.2))
  rw [if_neg (fun h => hx h.1)]

/-- The fence scan fires on a leading triple backtick. -/
theorem splitFence_bt3 (rest : List Char) :
    splitFence (Char.ofNat 96 :: Char.ofNat 96 :: Char.ofNat 96 :: rest)
      = some ([], rest) := by
  show (if Char.ofNat 96 = Char.ofNat 96 ∧ Char.ofNat 96 = Char.ofNat 96 ∧
      Char.ofNat 96 = Char.ofNat 96 then some (([] : List Char), rest)
    else (splitFence (Char.ofNat 96 :: Char.ofNat 96 :: rest)).map
      (fun p => (Char.ofNat 96 :: p.1, p.2)))
    = some ([], rest)
  rw [if_pos ⟨rfl, rfl, rfl⟩]

/-- The fence scan finds nothing in backtick-free text. -/
theorem splitFence_none {a : List Char} (ha : ∀ c ∈ a, c ≠ Char.ofNat 96) :
    splitFence a = none := by
  induction a with
  | nil => rfl
  | cons x a' ih =>
    cases a' with
    | nil => rfl
    | cons y a'' =>
      cases a'' with
      | nil => rfl
      | cons z r =>
        rw [splitFence_cons_ne (ha x (List.mem_cons_self x _)) y z r,
          ih (fun c hc => ha c (List.mem_cons_of_mem x hc))]
        rfl

/-- The fence scan splits exactly at the first fence after backtick-free
text. -/
theorem splitFence_append {a : List Char} (ha : ∀ c ∈ a, c ≠ Char.ofNat 96)
    (rest : List Char) :
    splitFence (a ++ Char.ofNat 96 :: Char.ofNat 96 :: Char.ofNat 96 :: rest)
      = some (a, rest) := by
  induction a with
  | nil => simpa using splitFence_bt3 rest
  | cons x a' ih =>
    have hx := ha x (List.mem_cons_self x _)
    have ih' := ih fun c hc => ha c (List.mem_cons_of_mem x hc)
    cases a' with
    | nil =>
      simp only [List.cons_append, List.nil_append] at ih' ⊢
      rw [splitFence_cons_ne hx _ _ _, ih']
      rfl
    | cons y a'' =>
      cases a'' with
      | nil =>
        simp only [List.cons_append, List.nil_append] at ih' ⊢
        rw [splitFence_cons_ne hx _ _ _, ih']
        rfl
      | cons z r' =>
        simp only [List.cons_append] at ih' ⊢
        rw [splitFence_cons_ne hx _ _ _, ih']
        rfl

/-- Step 2 finds no markdown block in backtick-free text. -/
theorem markdownExtract_none {cs : List Char} (h : ∀ c ∈ cs, c ≠ Char.ofNat 96) :
    markdownExtract cs = none := by
  unfold markdownExtract
  rw [splitFence_none h]

/-- Step 2 in terms of the two fence splits it performs. -/
theorem markdownExtract_wrap {cs pre1 A inner rest2 : List Char}
    (h1 : splitFence cs = some (pre1, A))
    (h2 : splitFence (if A.take 4 = "json".toList then A.drop 4 else A)
      = some (inner, rest2)) :
    markdownExtract cs = some (jsTrim inner) := by
  unfold markdownExtract
  rw [h1]
  show (match splitFence (if A.take 4 = "json".toList then A.drop 4 else A) with
    | none => none
    | some (inner, _) => some (jsTrim inner)) = some (jsTrim inner)
  rw [h2]

/-- Prose that cannot confuse the span heuristics: free of braces, brackets
and backticks. -/
def proseSafe (cs : List Char) : Bool :=
  cs.all fun c =>
    !(c = '\x7b' || c = '\x7d' || c = '[' || c = ']' || c = Char.ofNat 96)

/-- Unpack the prose-safety class. -/
theorem proseSafe_spec {cs : List Char} (h : proseSafe cs = true) :
    ∀ c ∈ cs, c ≠ '\x7b' ∧ c ≠ '\x7d' ∧ c ≠ '[' ∧ c ≠ ']' ∧ c ≠ Char.ofNat 96 := by
  intro c hc
  rw [proseSafe, List.all_eq_true] at h
  have hcx := h c hc
  simp only [Bool.not_eq_true', Bool.or_eq_false_iff, decide_eq_false_iff_not] at hcx
  tauto

/-- A triple-backtick fence. -/
def bt3 : List Char := [Char.ofNat 96, Char.ofNat 96, Char.ofNat 96]

/-- The optional language tag after the opening fence. -/
def fenceTag (t : Bool) : List Char := if t then "json".toList else []

/-- The serialized document, optionally damaged with a trailing comma before
its closing brace. -/
def payloadDoc (tr : Bool) (ms : List (List Char × Json)) : List Char :=
  if tr then trailedObj ms else stringifyJ (Json.obj ms)

/-- A model response carrying the document: optionally fenced (with an
optional `json` tag) and surrounded by prose. -/
def wrapDoc (f t tr : Bool) (pre post : List Char)
    (ms : List (List Char × Json)) : List Char :=
  if f then pre ++ bt3 ++ fenceTag t ++ '\n' :: payloadDoc tr ms ++ '\n' :: bt3 ++ post
  else pre ++ payloadDoc tr ms ++ post

/-- `safeJSONParse` in terms of the two parse attempts on the cleaned text. -/
theorem safeJSONParse_core (text : List Char) :
    safeJSONParse text =
      match jsonParse (extractSpan (cleanedText text)) with
      | some v => Except.ok v
      | none =>
        match jsonParse (fixCommas (extractSpan (cleanedText text))) with
        | some v => Except.ok v
        | none => Except.error malformedErr := by
  simp only [safeJSONParse, safeJSONParseFull]
  rcases h1 : jsonParse (extractSpan (cleanedText text)) with _ | v
  · rcases h2 : jsonParse (fixCommas (extractSpan (cleanedText text))) with _ | v
    · rfl
    · rfl
  · rfl

/-- Steps 1-2 on a bare document in prose: the trims apply and the markdown
substitution does not fire. -/
theorem cleanedText_noFence {pre post pay q : List Char}
    (hpre : ∀ c ∈ pre, c ≠ Char.ofNat 96)
    (hpost : ∀ c ∈ post, c ≠ Char.ofNat 96)
    (hpay : ∀ c ∈ pay, c ≠ Char.ofNat 96)
    (hshape : pay = '\x7b' :: (q ++ ['\x7d'])) :
    cleanedText (pre ++ pay ++ post) = trimLeft pre ++ pay ++ trimRight post := by
  have htrim : jsTrim (pre ++ pay ++ post) = trimLeft pre ++ pay ++ trimRight post := by
    rw [hshape]
    exact jsTrim_wrap (by decide) (by decide)
  have hmd : markdownExtract (trimLeft pre ++ pay ++ trimRight post) = none := by
    apply markdownExtract_none
    intro c hc
    simp only [List.mem_append] at hc
    rcases hc with (hc | hc) | hc
    · exact hpre c (mem_trimLeft hc)
    · exact hpay c hc
    · exact hpost c (mem_trimRight hc)
  simp only [cleanedText]
  rw [htrim, hmd]

/-- Steps 1-2 on a fenced document in prose: the markdown block is found and
its trimmed content substituted. -/
theorem cleanedText_fence (t : Bool) {pre post pay q : List Char}
    (hpre : ∀ c ∈ pre, c ≠ Char.ofNat 96)
    (hpay : ∀ c ∈ pay, c ≠ Char.ofNat 96)
    (hshape : pay = '\x7b' :: (q ++ ['\x7d'])) :
    cleanedText (pre ++ bt3 ++ fenceTag t ++ '\n' :: pay ++ '\n' :: bt3 ++ post) = pay := by
  have htrim : jsTrim (pre ++ bt3 ++ fenceTag t ++ '\n' :: pay ++ '\n' :: bt3 ++ post)
      = trimLeft pre ++ (Char.ofNat 96 :: ((Char.ofNat 96 :: Char.ofNat 96 :: fenceTag t ++
          '\n' :: pay ++ '\n' :: Char.ofNat 96 :: [Char.ofNat 96]) ++ [Char.ofNat 96])) ++
        trimRight post := by
    have hflat : pre ++ bt3 ++ fenceTag t ++ '\n' :: pay ++ '\n' :: bt3 ++ post
        = pre ++ (Char.ofNat 96 :: ((Char.ofNat 96 :: Char.ofNat 96 :: fenceTag t ++
            '\n' :: pay ++ '\n' :: Char.ofNat 96 :: [Char.ofNat 96]) ++ [Char.ofNat 96])) ++
          post := by
      simp [bt3]
    rw [hflat]
    exact jsTrim_wrap (by decide) (by decide)
  have hsf1 : splitFence (trimLeft pre ++ (Char.ofNat 96 :: ((Char.ofNat 96 :: Char.ofNat 96 ::
      fenceTag t ++ '\n' :: pay ++ '\n' :: Char.ofNat 96 :: [Char.ofNat 96]) ++
      [Char.ofNat 96])) ++ trimRight post)
      = some (trimLeft pre, fenceTag t ++ '\n' :: pay ++ '\n' :: Char.ofNat 96 ::
          Char.ofNat 96 :: Char.ofNat 96 :: trimRight post) := by
    have hre : trimLeft pre ++ (Char.ofNat 96 :: ((Char.ofNat 96 :: Char.ofNat 96 ::
        fenceTag t ++ '\n' :: pay ++ '\n' :: Char.ofNat 96 :: [Char.ofNat 96]) ++
        [Char.ofNat 96])) ++ trimRight post
        = trimLeft pre ++ Char.ofNat 96 :: Char.ofNat 96 :: Char.ofNat 96 ::
          (fenceTag t ++ '\n' :: pay ++ '\n' :: Char.ofNat 96 :: Char.ofNat 96 ::
            Char.ofNat 96 :: trimRight post) := by simp
    rw [hre]
    exact splitFence_append (fun c hc => hpre c (mem_trimLeft hc)) _
  have hafter1 : (if (fenceTag t ++ '\n' :: pay ++ '\n' :: Char.ofNat 96 :: Char.ofNat 96 ::
      Char.ofNat 96 :: trimRight post).take 4 = "json".toList
      then (fenceTag t ++ '\n' :: pay ++ '\n' :: Char.ofNat 96 :: Char.ofNat 96 ::
        Char.ofNat 96 :: trimRight post).drop 4
      else fenceTag t ++ '\n' :: pay ++ '\n' :: Char.ofNat 96 :: Char.ofNat 96 ::
        Char.ofNat 96 :: trimRight post)
      = '\n' :: pay ++ '\n' :: Char.ofNat 96 :: Char.ofNat 96 :: Char.ofNat 96 ::
        trimRight post := by
    cases t with
    | false =>
      have h0 : fenceTag false ++ '\n' :: pay ++ '\n' :: Char.ofNat 96 :: Char.ofNat 96 ::
          Char.ofNat 96 :: trimRight post
          = '\n' :: pay ++ '\n' :: Char.ofNat 96 :: Char.ofNat 96 :: Char.ofNat 96 ::
            trimRight post := rfl
      rw [h0]
      have hne : ('\n' :: pay ++ '\n' :: Char.ofNat 96 :: Char.ofNat 96 :: Char.ofNat 96 ::
          trimRight post).take 4 ≠ "json".toList := by
        intro h
        have h4 : ('\n' :: pay ++ '\n' :: Char.ofNat 96 :: Char.ofNat 96 :: Char.ofNat 96 ::
            trimRight post).take 4
            = '\n' :: (pay ++ '\n' :: Char.ofNat 96 :: Char.ofNat 96 :: Char.ofNat 96 ::
              trimRight post).take 3 := rfl
        rw [h4, show "json".toList = ['j', 's', 'o', 'n'] from rfl] at h
        injection h with h1 _
        exact absurd h1 (by decide)
      rw [if_neg hne]
    | true =>
      have h0 : fenceTag true ++ '\n' :: pay ++ '\n' :: Char.ofNat 96 :: Char.ofNat 96 ::
          Char.ofNat 96 :: trimRight post
          = 'j' :: 's' :: 'o' :: 'n' :: ('\n' :: pay ++ '\n' :: Char.ofNat 96 ::
            Char.ofNat 96 :: Char.ofNat 96 :: trimRight post) := rfl
      rw [h0]
      rw [if_pos (by rfl)]
      rfl
  have hsf2 : splitFence ('\n' :: pay ++ '\n' :: Char.ofNat 96 :: Char.ofNat 96 ::
      Char.ofNat 96 :: trimRight post)
      = some ('\n' :: pay ++ ['\n'], trimRight post) := by
    have he : '\n' :: pay ++ '\n' :: Char.ofNat 96 :: Char.ofNat 96 :: Char.ofNat 96 ::
        trimRight post
        = ('\n' :: pay ++ ['\n']) ++ Char.ofNat 96 :: Char.ofNat 96 :: Char.ofNat 96 ::
          trimRight post := by simp
    rw [he]
    refine splitFence_append ?_ _
    intro c hc
    simp only [List.mem_cons, List.mem_append, List.not_mem_nil, or_false] at hc
    rcases hc with (rfl | hc) | rfl
    · decide
    · exact hpay c hc
    · decide
  have hmd : markdownExtract (jsTrim (pre ++ bt3 ++ fenceTag t ++ '\n' :: pay ++ '\n' ::
      bt3 ++ post)) = some (jsTrim ('\n' :: pay ++ ['\n'])) := by
    rw [htrim]
    exact markdownExtract_wrap hsf1 (by rw [hafter1]; exact hsf2)
  simp only [cleanedText]
  rw [hmd]
  show jsTrim ('\n' :: pay ++ ['\n']) = pay
  rw [hshape]
  have hi := jsTrim_inner q
  simpa using hi

/-- C4 (amended): for a benign document and brace-, bracket- and
backtick-free prose, `safeJSONParse` recovers the document from any
combination of fencing (with or without a `json` tag), surrounding prose,
and a trailing comma inserted before the closing brace. -/
theorem c4_amended (f t tr : Bool) (pre post : List Char) (ms : List (List Char × Json))
    (hb : benignM ms = true) (hpre : proseSafe pre = true) (hpost : proseSafe post = true) :
    safeJSONParse (wrapDoc f t tr pre post ms) = Except.ok (Json.obj ms) := by
  have hbJ : benignJ (Json.obj ms) = true := hb
  have hmsBt := (noBt_str (sizeOf ms)).2.2 ms (le_refl _) hb
  have hshape : payloadDoc tr ms
      = '\x7b' :: ((if tr then stringifyM ms ++ [','] else stringifyM ms) ++ ['\x7d']) := by
    cases tr with
    | false => simp [payloadDoc, stringifyJ]
    | true => simp [payloadDoc, trailedObj]
  have hnoBtPay : ∀ c ∈ payloadDoc tr ms, c ≠ Char.ofNat 96 := by
    intro c hc
    rw [hshape] at hc
    simp only [List.mem_cons, List.mem_append, List.not_mem_nil, or_false] at hc
    rcases hc with rfl | hc | rfl
    · decide
    · have hc' : c ∈ stringifyM ms ∨ c = ',' := by
        cases tr with
        | false => exact Or.inl (by simpa using hc)
        | true =>
          have hc2 : c ∈ stringifyM ms ++ [','] := by simpa using hc
          simpa [List.mem_append, List.mem_singleton] using hc2
      rcases hc' with hc' | rfl
      · exact hmsBt c hc'
      · decide
    · decide
  suffices hcl : extractSpan (cleanedText (wrapDoc f t tr pre post ms)) = payloadDoc tr ms by
    rw [safeJSONParse_core, hcl]
    cases tr with
    | false =>
      have hjp : jsonParse (payloadDoc false ms) = some (Json.obj ms) :=
        jsonParse_stringify hbJ
      rw [hjp]
    | true =>
      have hjp : jsonParse (payloadDoc true ms) = none := jsonParse_trailedObj hb
      have hfx : fixCommas (payloadDoc true ms) = stringifyJ (Json.obj ms) :=
        fixCommas_trailedObj hb
      rw [hjp, hfx, jsonParse_stringify hbJ]
  cases f with
  | false =>
    have hw : wrapDoc false t tr pre post ms = pre ++ payloadDoc tr ms ++ post := by
      simp [wrapDoc]
    rw [hw, cleanedText_noFence (fun c hc => (proseSafe_spec hpre c hc).2.2.2.2)
      (fun c hc => (proseSafe_spec hpost c hc).2.2.2.2) hnoBtPay hshape, hshape]
    refine extractSpan_wrap ?_ ?_
    · intro c hc
      obtain ⟨h1, h2, h3, h4, -⟩ := proseSafe_spec hpre c (mem_trimLeft hc)
      exact ⟨h1, h2, h3, h4⟩
    · intro c hc
      obtain ⟨h1, h2, h3, h4, -⟩ := proseSafe_spec hpost c (mem_trimRight hc)
      exact ⟨h1, h2, h3, h4⟩
  | true =>
    have hw : wrapDoc true t tr pre post ms
        = pre ++ bt3 ++ fenceTag t ++ '\n' :: payloadDoc tr ms ++ '\n' :: bt3 ++ post := by
      simp [wrapDoc]
    rw [hw, cleanedText_fence t (fun c hc => (proseSafe_spec hpre c hc).2.2.2.2)
      hnoBtPay hshape, hshape]
    have he : '\x7b' :: ((if tr then stringifyM ms ++ [','] else stringifyM ms) ++ ['\x7d'])
        = [] ++ ('\x7b' :: (if tr then stringifyM ms ++ [','] else stringifyM ms) ++
          ['\x7d']) ++ [] := by simp
    conv_lhs => rw [he]
    rw [extractSpan_wrap (fun c hc => absurd hc (List.not_mem_nil c))
      (fun c hc => absurd hc (List.not_mem_nil c))]
    simp

/-- A valid `StoryPolishResponse` document used as the concrete example. -/
def exMs : List (List Char × Json) :=
  [("critique".toList, Json.str "fine".toList),
   ("rewritten_story".toList, Json.str "A tale.".toList),
   ("changes_made".toList, Json.arr [Json.str "none".toList])]

/-- C4 counterexample: for arbitrary surrounding prose the claim fails.
Appending the prose text consisting of a space and a closing brace to the
serialization of a valid `StoryPolishResponse` document makes the extractor
throw its malformed-response error, although the bare serialization extracts
to the document itself: the final brace of the prose widens the
first-brace/last-brace span beyond the document, and neither parse attempt
then succeeds. -/
theorem c4_counterexample :
    safeJSONParse (stringifyJ (Json.obj exMs) ++ [' ', '\x7d']) = Except.error malformedErr ∧
    safeJSONParse (stringifyJ (Json.obj exMs)) = Except.ok (Json.obj exMs) := by
  constructor
  · rfl
  · rfl

/-- Prose used by the witness, before the document. -/
def exPre : List Char := "Sure! Here is the JSON you asked for: ".toList

/-- Prose used by the witness, after the document. -/
def exPost : List Char := " Let me know if you need edits.".toList

/-- Witness for the amended C4 at a concrete fenced, tagged, trailing-comma
response. -/
theorem c4_amended_witness :
    benignM exMs = true ∧ proseSafe exPre = true ∧ proseSafe exPost = true ∧
    safeJSONParse (wrapDoc true true true exPre exPost exMs) = Except.ok (Json.obj exMs) :=
  ⟨rfl, rfl, rfl, c4_amended true true true exPre exPost exMs rfl rfl rfl⟩

end AiVideoGen
